import Mathlib

/-!
Verification of the SteelConstructionTabletViewer core: the cut-piece
geometry extractor (src/api/cut_piece_extractor.py) and the cutting-stock
nesting optimizer (generate_nesting in src/api/main.py).

The Python code is shallowly embedded: float arithmetic is modelled by
exact rationals (ℚ) wherever the computations are field operations, and
by ℝ where the source applies transcendental functions (sqrt, arccos).
Machine tangent values (math.tan of an angle given in degrees) enter the
nesting model through an explicit function parameter `tanD`, standing for
the composition  a ↦ tan(a·π/180)  that the source evaluates in floating
point.
-/

namespace SteelNest

/-- Three-dimensional rational vector, modelling a numpy float64 triple. -/
structure V3 where
  x : ℚ
  y : ℚ
  z : ℚ
deriving DecidableEq, Repr

def dot3 (a b : V3) : ℚ := a.x * b.x + a.y * b.y + a.z * b.z

def sub3 (a b : V3) : V3 := ⟨a.x - b.x, a.y - b.y, a.z - b.z⟩

def add3 (a b : V3) : V3 := ⟨a.x + b.x, a.y + b.y, a.z + b.z⟩

def smul3 (c : ℚ) (a : V3) : V3 := ⟨c * a.x, c * a.y, c * a.z⟩

/-- Sum of a list of rationals (numpy sum). -/
def qsum (l : List ℚ) : ℚ := l.foldr (· + ·) 0

/-- Mean of the coordinates of a vertex list (numpy vertices.mean(axis=0)).
For the empty list this returns the zero vector (the source never reaches
that case: callers guard on at least 3, resp. 2, vertices). -/
def centroid3 (vs : List V3) : V3 :=
  ⟨qsum (vs.map V3.x) / vs.length,
   qsum (vs.map V3.y) / vs.length,
   qsum (vs.map V3.z) / vs.length⟩

/-- Maximum of a nonempty rational list, 0 for the empty list
(np.max; the source only applies it to nonempty arrays). -/
def qmax : List ℚ → ℚ
  | [] => 0
  | [a] => a
  | a :: b :: t => max a (qmax (b :: t))

/-- Minimum of a nonempty rational list, 0 for the empty list (np.min). -/
def qmin : List ℚ → ℚ
  | [] => 0
  | [a] => a
  | a :: b :: t => min a (qmin (b :: t))

/-!
Unit-scale detection, from CutPieceExtractor._detect_unit_scale
(cut_piece_extractor.py lines 89-144).  The sampling of the first ten
IfcBeam/IfcColumn lengths is the input list; the embedded function is the
classification applied to those sampled raw lengths.  The scale factor
1.0 stands for "coordinates are meters", 0.001 for "coordinates are mm".
-/

def detectUnitScale (lengths : List ℚ) : ℚ :=
  if lengths = [] then 1
  else
    let avg := qsum lengths / lengths.length
    if avg < 1 then 1
    else if avg > 1000 then 1 / 1000
    else if avg > 10 then 1 / 1000
    else 1

/-!
Mesh-based length extraction, from CutPieceExtractor._extract_from_mesh
(lines 404-445) and the re-derivation of the length from extreme vertex
projections in _detect_end_cuts_from_vertices (lines 711-735).  The
dominant axis is the principal-component eigenvector computed by
np.linalg.eigh; the embedding takes that axis as an input (the numerical
eigendecomposition itself is not re-modelled) together with the vertex
list, and models the downstream arithmetic exactly.  The millimeter
branch is modelled (no meters-to-mm rescaling step), which only changes
lengths by the uniform 1000 factor.
-/

def projections (vs : List V3) (axis : V3) : List ℚ :=
  let c := centroid3 vs
  vs.map fun v => dot3 (sub3 v c) axis

/-- start_world = centroid + t_min·axis (line 430). -/
def meshStart (vs : List V3) (axis : V3) : V3 :=
  add3 (centroid3 vs) (smul3 (qmin (projections vs axis)) axis)

/-- end_world = centroid + t_max·axis (line 431). -/
def meshEnd (vs : List V3) (axis : V3) : V3 :=
  add3 (centroid3 vs) (smul3 (qmax (projections vs axis)) axis)

/-- length = abs(dot(end_world − start_world, axis)) (lines 435-436). -/
def meshLength (vs : List V3) (axis : V3) : ℚ :=
  |dot3 (sub3 (meshEnd vs axis) (meshStart vs axis)) axis|

/-- calculated_actual_length = max_proj − min_proj (line 727), the value
that _detect_end_cuts_from_vertices always substitutes for the length. -/
def actualLengthFromVertices (vs : List V3) (axis : V3) : ℚ :=
  qmax (projections vs axis) - qmin (projections vs axis)

/-- Squared Euclidean distance between two vertices (for contrasting the
axial length with the Euclidean endpoint distance; kept squared so the
comparison stays inside ℚ). -/
def sqDist (a b : V3) : ℚ := dot3 (sub3 a b) (sub3 a b)

/-!
Plane-fit residual and confidence, from CutPieceExtractor._fit_end_plane
(lines 893-904).  The residual of a captured vertex is the absolute dot
product of the centered vertex with the fitted plane normal; the
confidence is max(0, 1 − avg_residual / plane_residual_mm) with the fixed
2.0 mm tolerance set in __init__ (line 83).
-/

def planeResidualMm : ℚ := 2

def meanAbsResidual (pts : List V3) (n : V3) : ℚ :=
  let c := centroid3 pts
  qsum (pts.map fun p => |dot3 (sub3 p c) n|) / pts.length

def fitConfidence (pts : List V3) (n : V3) : ℚ :=
  max 0 (1 - meanAbsResidual pts n / planeResidualMm)

/-!
Normalization and orientation of the fitted plane normal, from
CutPieceExtractor._fit_end_plane lines 868-888.  np.linalg.svd yields the
last row of Vt as the candidate normal; the code then divides it by
(np.linalg.norm(candidate) + 1e-10) and afterwards flips its sign
whenever its dot product with the piece axis is negative — the same
unconditional rule for the start and for the end extremity.  The square
root forces this part of the embedding into ℝ.
-/

/-- Real-valued 3-vector for the normalization/angle computations. -/
structure V3R where
  x : ℝ
  y : ℝ
  z : ℝ

def dot3R (a b : V3R) : ℝ := a.x * b.x + a.y * b.y + a.z * b.z

def smulR (c : ℝ) (a : V3R) : V3R := ⟨c * a.x, c * a.y, c * a.z⟩

def negR (a : V3R) : V3R := ⟨-a.x, -a.y, -a.z⟩

/-- The 1e-10 guard added to the norm in the denominator (line 872). -/
noncomputable def normEpsR : ℝ := 1 / 10 ^ 10

noncomputable def norm3R (v : V3R) : ℝ := Real.sqrt (dot3R v v)

/-- plane_normal = plane_normal / (np.linalg.norm(plane_normal) + 1e-10). -/
noncomputable def normalizeFit (v : V3R) : V3R :=
  smulR (1 / (norm3R v + normEpsR)) v

/-- Sign flip of lines 881-882: if dot(normal, axis) < 0 then negate.
The rule does not depend on which extremity the cluster belongs to. -/
noncomputable def orientFit (n axis : V3R) : V3R :=
  if dot3R n axis < 0 then negR n else n

/-- The normal stored in the returned EndCut. -/
noncomputable def fitNormal (v axis : V3R) : V3R :=
  orientFit (normalizeFit v) axis

/-- np.clip(x, 0, 1) (line 886). -/
noncomputable def clip01 (t : ℝ) : ℝ := min (max t 0) 1

/-- angle_deg = degrees(arccos(clip(abs(dot(normal, axis)), 0, 1)))
(lines 885-888). -/
noncomputable def fitAngleDeg (n axis : V3R) : ℝ :=
  Real.arccos (clip01 |dot3R n axis|) * 180 / Real.pi

/-!
Cutting-stock nesting optimizer, from generate_nesting in
src/api/main.py (the per-profile while loop, lines 2770-4301).  A part
record carries the fields of the part_data dictionaries that the loop
reads: product id, length (mm), the two end-cut angles with their
has-slope flags and confidences, and the flipped marker set by the
greedy fill when it swaps the start and end designations.  Python
mutates the part dictionaries in place and compares them by value; the
embedding tracks the same values through explicit list updates.
-/

structure NPart where
  pid : Nat
  plen : ℚ
  startAngle : Option ℚ
  endAngle : Option ℚ
  startHasSlope : Bool
  endHasSlope : Bool
  startConf : ℚ
  endConf : ℚ
  flipped : Bool
deriving DecidableEq, Repr

/-- One entry of pattern_parts: the placed part, its cut position, its
length, and the slope_info fields that later flush decisions read. -/
structure Placement where
  part : NPart
  cutPosition : ℚ
  plen : ℚ
  sStartAngle : Option ℚ
  sEndAngle : Option ℚ
  sStartHasSlope : Bool
  sEndHasSlope : Bool
deriving DecidableEq, Repr

/-- One emitted cutting pattern (dict appended to cutting_patterns,
lines 4289-4294). -/
structure Pattern where
  stockLength : ℚ
  parts : List Placement
  waste : ℚ
  wastePct : ℚ
deriving DecidableEq, Repr

/-- Structured content of the human-readable reason strings attached to
rejected_parts entries; each constructor carries exactly the numbers the
corresponding f-string interpolates. -/
inductive RejectReason where
  /-- "Part length (L mm) exceeds longest available stock (S mm)" (line 2819). -/
  | exceedsLongestStock (partLen stockLen : ℚ)
  /-- "Pattern total length (C mm) exceeds stock (S mm)" (line 4152). -/
  | patternTotalExceeds (currentLength stockLen : ℚ)
  /-- "Pattern total parts length (T mm) exceeds stock (S mm) - no shared
  boundaries" (line 4195). -/
  | partsLengthExceeds (totalPartsLength stockLen : ℚ)
  /-- "Pattern calculation error: current_length (C mm) unreasonably
  exceeds total_parts_length (T mm)" (line 4229). -/
  | calcError (currentLength totalPartsLength : ℚ)
  /-- "Part length (L mm) exceeds selected stock (S mm)" (line 4253). -/
  | exceedsSelectedStock (partLen stockLen : ℚ)
deriving DecidableEq, Repr

/-- One rejected_parts entry (the fields the claims speak about). -/
structure Rejected where
  pid : Nat
  rlen : ℚ
  stockLength : ℚ
  reason : RejectReason
deriving DecidableEq, Repr

/-- Minimal tolerance for floating point errors only (tolerance_mm = 0.1). -/
def tolMM : ℚ := 1 / 10

/-- Standard kerf for steel cutting (kerf_mm = 3.0, line 3991). -/
def kerfMM : ℚ := 3

/-- Stable insertion into a descending-by-key list: the new element goes
after every element whose key is at least its own, which together with
the left fold below reproduces the stability of Python sorted/list.sort
with reverse=True. -/
def insertDescBy (key : α → ℚ) (a : α) : List α → List α
  | [] => [a]
  | b :: t => if key b < key a then a :: b :: t else b :: insertDescBy key a t

/-- Stable descending sort by a rational key. -/
def sortDescBy (key : α → ℚ) (l : List α) : List α :=
  l.foldl (fun acc a => insertDescBy key a acc) []

/-- Sum of the lengths of the remaining parts
(total_length_all_remaining, line 2838). -/
def totalLen (parts : List NPart) : ℚ := qsum (parts.map NPart.plen)

/-- Length of the largest remaining part (largest_part_length). -/
def largestLen (parts : List NPart) : ℚ := qmax (parts.map NPart.plen)

/-- Candidacy test of lines 2877-2881: all remaining parts fit together
in the stock, and every part also fits individually. -/
def fitsAll (parts : List NPart) (s : ℚ) : Bool :=
  decide (totalLen parts ≤ s) && parts.all fun p => decide (p.plen ≤ s)

/-- Stock-length selection, lines 2872-2960.  candidate_stocks holds the
descending-sorted stocks in which all remaining parts fit together; the
code then re-sorts by (−length, waste), a no-op on an already descending
list whose waste is determined by the length, takes the longest candidate,
and immediately replaces it by the shortest candidate whenever the total
fits there (which candidacy already guarantees).  If no stock holds
everything, the fallback picks the longest stock that fits the largest
part.  Returns none when even that fails (the loop then breaks). -/
def selectStock (stocks : List ℚ) (parts : List NPart) : Option ℚ :=
  let sorted := sortDescBy id stocks
  let candidates := sorted.filter (fitsAll parts)
  match candidates with
  | [] =>
      let candLargest := sorted.filter fun s => decide (largestLen parts ≤ s)
      candLargest.head?
  | [c] => some c
  | c :: c2 :: rest =>
      let shorter := (c :: c2 :: rest).getLast (by simp)
      if totalLen parts ≤ shorter then some shorter else some c

/-!
Step 1 of one pattern build: the complementary-pair search of lines
3086-3593.
-/

/-- Deviation from a square cut as the low-confidence detection computes
it (lines 3115-3120): angles recorded near 90 degrees measure deviation
from 90, others are already deviations. -/
def slopeDeviation (a : ℚ) : ℚ :=
  if 60 ≤ |a| ∧ |a| ≤ 120 then |a - 90| else |a|

/-- Low-confidence slope detection (lines 3112-3132): an end whose angle
exists but whose has-slope flag is off still counts for pairing when the
deviation exceeds 5 degrees and the confidence lies in (0.2, 0.5]. -/
def lowConfSlope (angle : Option ℚ) (hasSlope : Bool) (conf : ℚ) : Bool :=
  match angle with
  | none => false
  | some a =>
      !hasSlope && decide (slopeDeviation a > 5 ∧ 1 / 5 < conf ∧ conf ≤ 1 / 2)

/-- The four pairing orientations of Step 1. -/
inductive PairType where
  | startEnd
  | endStart
  | endEnd
  | startStart
deriving DecidableEq, Repr

/-- Angle test shared by cases 1, 2 and 2b (for example lines 3191-3197):
the absolute magnitudes agree within 5 degrees and the part1-side
magnitude exceeds 1 degree. -/
def anglesClose5 (a1 a2 : ℚ) : Bool :=
  decide (|(|a1| - |a2|)| < 5 ∧ |a1| > 1)

/-- Opposite-sign test of the start-start case (line 3234). -/
def oppositeSigns (a1 a2 : ℚ) : Bool :=
  (decide (a1 > 0) && decide (a2 < 0)) || (decide (a1 < 0) && decide (a2 > 0))

/-- Complementarity decision of lines 3184-3249, evaluated on the
combined (high- or low-confidence) slope flags.  The cases are tried in
source order; the end-end block repeated at lines 3241-3249 has a
condition identical to case 2b and can never fire after it, so one
end-end case suffices. -/
def determinePairing (p1sAny p1eAny p2sAny p2eAny : Bool)
    (a1s a1e a2s a2e : Option ℚ) : Option PairType :=
  if p1sAny && p2eAny &&
      (match a1s, a2e with
       | some a, some b => anglesClose5 a b
       | _, _ => false) then
    some .startEnd
  else if p1eAny && p2sAny &&
      (match a1e, a2s with
       | some a, some b => anglesClose5 a b
       | _, _ => false) then
    some .endStart
  else if p1eAny && p2eAny &&
      (match a1e, a2e with
       | some a, some b => anglesClose5 a b
       | _, _ => false) then
    some .endEnd
  else if p1sAny && p2sAny &&
      (match a1s, a2s with
       | some a, some b => anglesClose5 a b && oppositeSigns a b
       | _, _ => false) then
    some .startStart
  else
    none

/-- The two angles participating in the shared cut (lines 3264-3279). -/
def pairAngles (pt : PairType) (p1 p2 : NPart) : Option ℚ × Option ℚ :=
  match pt with
  | .endStart => (p1.endAngle, p2.startAngle)
  | .startEnd => (p1.startAngle, p2.endAngle)
  | .endEnd => (p1.endAngle, p2.endAngle)
  | .startStart => (p1.startAngle, p2.startAngle)

/-- Cap fraction of the smaller part (max_shared = min·0.9, line 3354). -/
def sharedCapFraction : ℚ := 9 / 10

/-- angle_for_calculation = angle1_val if not None else angle2_val
(line 3282). -/
def pairCalcAngle (pt : PairType) (p1 p2 : NPart) : Option ℚ :=
  match (pairAngles pt p1 p2).1 with
  | some a => some a
  | none => (pairAngles pt p1 p2).2

/-- Shared length and combined length of a complementary pair, lines
3337-3380.  tanD models math.tan applied to the angle converted to
radians; the source guard angle_rad > 0.01 is equivalent to
abs(angle) > 1.8/π and is therefore implied by the enclosing
abs(angle) > 1.0 test (π > 1.8), so it needs no separate rational-side
condition.  Returns (shared_linear_slopes_length, combined_length). -/
def pairSharedAndCombined (depth l1 l2 : ℚ) (tanD : ℚ → ℚ)
    (angle : Option ℚ) : ℚ × ℚ :=
  match angle with
  | none => (0, l1 + l2)
  | some a =>
      if |a| > 1 then
        let s0 := depth * tanD |a|
        let cap := min l1 l2 * sharedCapFraction
        let s1 := if s0 > cap then cap else s0
        let c1 := l1 + l2 - s1
        if c1 < 0 then
          let cap2 := min l1 l2 * (1 / 2)
          if s1 > cap2 then (cap2, l1 + l2 - cap2) else (s1, c1)
        else (s1, c1)
      else (0, l1 + l2)

/-- Stock search for a pair (lines 3395-3405): walking the stocks in
descending order, a stock is taken when combined ≤ stock + 0.1 and the
inner strict re-check combined ≤ stock also passes, so the first
(longest) stock with combined ≤ stock wins. -/
def pairBestStock (stocks : List ℚ) (combined : ℚ) : Option ℚ :=
  (sortDescBy id stocks).find? fun s => decide (combined ≤ s)

/-- Mutable state accumulated while building one pattern. -/
structure BuildSt where
  patternParts : List Placement
  currentLength : ℚ
  totalPartsLength : ℚ
  cutPosition : ℚ
  partsToRemove : List NPart
  stockToUse : ℚ
deriving DecidableEq, Repr

/-- Control outcome of one inner-loop body: keep scanning part2
candidates, or leave the inner loop. -/
inductive InnerCtl where
  | cont
  | brk
deriving DecidableEq, Repr

/-- Absolute-strict epsilon of the first post-commit check (line 3530). -/
def epsilonPair : ℚ := 1 / 100

/-- Placement built for a part placed by Step 1, lines 3485-3519: the
slope_info records the combined any-confidence flags. -/
def mkPairPlacement (p : NPart) (cutPos : ℚ) (sAny eAny : Bool) : Placement :=
  ⟨p, cutPos, p.plen, p.startAngle, p.endAngle, sAny, eAny⟩

/-- Commit block of the inner Step 1 loop (lines 3475-3590): final fit
validation, the two pair placements, the rollback chain, and the state
update for an accepted pair.  The remaining rollback checks of lines
3551-3574 repeat the second condition with a weaker bound and can never
fire after it; they are noted here and subsumed. -/
def step1Commit (bestStock : ℚ) (p1 : NPart) (p1sAny p1eAny : Bool)
    (p2 : NPart) (p2sAny p2eAny : Bool) (shared combined : ℚ)
    (st1 : BuildSt) : BuildSt × InnerCtl :=
  let lengthAfter := st1.currentLength + combined
  if lengthAfter > bestStock + tolMM then (st1, .cont)
  else
    let lengthBefore := st1.currentLength
    let pl1 := mkPairPlacement p1 st1.cutPosition p1sAny p1eAny
    let p2cut := st1.cutPosition + p1.plen - shared
    let pl2 := mkPairPlacement p2 p2cut p2sAny p2eAny
    let pp2 := st1.patternParts ++ [pl1, pl2]
    let cur := lengthBefore + combined
    let rollback : BuildSt :=
      { st1 with
        patternParts := pp2.filter fun pp => pp.part ≠ p1 ∧ pp.part ≠ p2,
        currentLength := lengthBefore,
        cutPosition := lengthBefore }
    if cur > bestStock + epsilonPair then (rollback, .cont)
    else if cur > bestStock then (rollback, .cont)
    else
      ({ st1 with
         patternParts := pp2,
         currentLength := cur,
         totalPartsLength := st1.totalPartsLength + p1.plen + p2.plen,
         cutPosition := p2cut + p2.plen,
         partsToRemove := st1.partsToRemove ++ [p1, p2] }, .brk)

/-- Body of the inner Step 1 loop for one complementary candidate pair,
lines 3251-3593, entered after the pairing type is established.  Returns
the updated build state together with the continue/break decision of the
source control flow. -/
def step1TryPair (stocks : List ℚ) (depth : ℚ) (tanD : ℚ → ℚ)
    (bestStock : ℚ) (p1 : NPart) (p1sAny p1eAny : Bool)
    (p2 : NPart) (p2sAny p2eAny : Bool) (pt : PairType)
    (st : BuildSt) : BuildSt × InnerCtl :=
  let sc := pairSharedAndCombined depth p1.plen p2.plen tanD
    (pairCalcAngle pt p1 p2)
  let shared := sc.1
  let combined := sc.2
  let bsp? := pairBestStock stocks combined
  let stockToUse :=
    match bsp? with
    | some bsp =>
        if st.currentLength = 0 then
          if combined ≤ bestStock then bestStock else bsp
        else bestStock
    | none => bestStock
  let st1 := { st with stockToUse := stockToUse }
  if st1.currentLength > bestStock + tolMM then (st1, .brk)
  else
    match bsp? with
    | none => (st1, .cont)
    | some bsp =>
        if combined ≤ bsp + tolMM then
          if combined > stockToUse then (st1, .cont)
          else
            if st1.currentLength = 0 then
              step1Commit bestStock p1 p1sAny p1eAny p2 p2sAny p2eAny
                shared combined st1
            else if st1.currentLength + combined ≤ bestStock + tolMM then
              if st1.currentLength + combined > bestStock then (st1, .cont)
              else
                step1Commit bestStock p1 p1sAny p1eAny p2 p2sAny p2eAny
                  shared combined st1
            else (st1, .brk)
        else (st1, .cont)

/-- Combined high/low-confidence slope flags of a part
(part_start_slope_any, part_end_slope_any). -/
def slopeAnyFlags (p : NPart) : Bool × Bool :=
  (p.startHasSlope || lowConfSlope p.startAngle p.startHasSlope p.startConf,
   p.endHasSlope || lowConfSlope p.endAngle p.endHasSlope p.endConf)

/-- Inner Step 1 loop over the part2 candidates valid[i+1:]. -/
def step1Inner (stocks : List ℚ) (depth : ℚ) (tanD : ℚ → ℚ)
    (bestStock : ℚ) (p1 : NPart) (p1sAny p1eAny : Bool) :
    List NPart → BuildSt → BuildSt
  | [], st => st
  | p2 :: tl, st =>
    if p2 ∈ st.partsToRemove then
      step1Inner stocks depth tanD bestStock p1 p1sAny p1eAny tl st
    else
      let fl := slopeAnyFlags p2
      match determinePairing p1sAny p1eAny fl.1 fl.2
          p1.startAngle p1.endAngle p2.startAngle p2.endAngle with
      | none => step1Inner stocks depth tanD bestStock p1 p1sAny p1eAny tl st
      | some pt =>
          match step1TryPair stocks depth tanD bestStock
              p1 p1sAny p1eAny p2 fl.1 fl.2 pt st with
          | (st2, .cont) =>
              step1Inner stocks depth tanD bestStock p1 p1sAny p1eAny tl st2
          | (st2, .brk) => st2

/-- Outer Step 1 loop over part1 candidates (the valid parts sorted by
length descending); each part1 scans the suffix after itself, matching
enumerate(valid)[i] against valid[i+1:]. -/
def step1Outer (stocks : List ℚ) (depth : ℚ) (tanD : ℚ → ℚ)
    (bestStock : ℚ) : List NPart → BuildSt → BuildSt
  | [], st => st
  | p1 :: tl, st =>
    if st.currentLength > bestStock + tolMM then st
    else if p1 ∈ st.partsToRemove then
      step1Outer stocks depth tanD bestStock tl st
    else
      let fl := slopeAnyFlags p1
      if !(fl.1 || fl.2) then step1Outer stocks depth tanD bestStock tl st
      else
        let st2 := step1Inner stocks depth tanD bestStock p1 fl.1 fl.2 tl st
        step1Outer stocks depth tanD bestStock tl st2

/-!
Step 2 of one pattern build: candidate ordering (look-ahead, flush
scores, flush prioritization; lines 3601-3896) and the greedy fill loop
(lines 3898-4061).
-/

/-- Boundary-sharing test used by the ordering heuristics (for example
lines 3841-3847): both touching ends square, or both sloped with angle
magnitudes within 2 degrees.  No sign condition here. -/
def canShareNoSign (ps : Bool) (pa : Option ℚ) (cs : Bool) (ca : Option ℚ) :
    Bool :=
  if !ps && !cs then true
  else if ps && cs then
    match pa, ca with
    | some a, some b => decide (|(|a| - |b|)| ≤ 2)
    | _, _ => false
  else false

/-- Boundary-sharing test of the fill loop itself (lines 3941-3955 and
the flipped variant 3964-3972): both square, or both sloped with angle
magnitudes within 2 degrees AND opposite signs. -/
def boundaryCanShare (ps : Bool) (pa : Option ℚ) (cs : Bool)
    (ca : Option ℚ) : Bool :=
  if !ps && !cs then true
  else if ps && cs then
    match pa, ca with
    | some a, some b => decide (|(|a| - |b|)| ≤ 2) && oppositeSigns a b
    | _, _ => false
  else false

/-- Natural-orientation share test of the look-ahead simulation. -/
def laCanShare (prevS : Bool) (prevA : Option ℚ) (p : NPart) : Bool :=
  canShareNoSign prevS prevA p.startHasSlope p.startAngle

/-- Share test including the flipped orientation (lines 3687-3698). -/
def laCanShareOrFlip (prevS : Bool) (prevA : Option ℚ) (p : NPart) : Bool :=
  laCanShare prevS prevA p ||
    canShareNoSign prevS prevA p.endHasSlope p.endAngle

/-- State of one look-ahead simulation. -/
structure SimSt where
  simLen : ℚ
  simParts : List NPart
  prevEndSlope : Bool
  prevEndAngle : Option ℚ
deriving DecidableEq, Repr

/-- Greedy extension of a look-ahead simulation (lines 3663-3726); the
fuel is max_parts_to_try = 10 and the candidate pool never shrinks, with
already-simulated parts skipped by membership. -/
def laFill (bestStock : ℚ) (srs : List NPart) : Nat → SimSt → SimSt
  | 0, s => s
  | fuel + 1, s =>
    let avail := srs.filter fun p => p ∉ s.simParts
    let canNow := avail.filter (laCanShareOrFlip s.prevEndSlope s.prevEndAngle)
    let cannotNow :=
      avail.filter fun p => !laCanShareOrFlip s.prevEndSlope s.prevEndAngle p
    match canNow ++ cannotNow with
    | [] => s
    | next :: _ =>
        let kerf := if next ∈ canNow then 0 else kerfMM
        let newLen := s.simLen + next.plen + kerf
        if newLen ≤ bestStock then
          laFill bestStock srs fuel
            ⟨newLen, s.simParts ++ [next], next.endHasSlope, next.endAngle⟩
        else s

/-- One look-ahead trial (lines 3629-3730): simulate a bar that starts
with the given trial part and report (waste, simulated parts). -/
def laTrial (bestStock : ℚ) (ptc : List NPart) (trial : NPart) :
    ℚ × List NPart :=
  let simRemaining := ptc.filter (· ≠ trial)
  let canF := sortDescBy NPart.plen
    (simRemaining.filter (laCanShare trial.endHasSlope trial.endAngle))
  let cannotF := sortDescBy NPart.plen
    (simRemaining.filter fun p =>
      !laCanShare trial.endHasSlope trial.endAngle p)
  let s := laFill bestStock (canF ++ cannotF) 10
    ⟨trial.plen, [trial], trial.endHasSlope, trial.endAngle⟩
  (bestStock - s.simLen, s.simParts)

/-- Selection of the best trial configuration (lines 3618-3735): minimum
waste, with a similar-waste (within 10mm) tie broken toward more parts. -/
def laBest (bestStock : ℚ) (candidates ptc : List NPart) :
    Option (List NPart) :=
  (candidates.foldl
    (fun acc trial =>
      let r := laTrial bestStock ptc trial
      match acc with
      | none => some r
      | some (bw, bc) =>
          if r.1 < bw ∨ (|r.1 - bw| < 10 ∧ bc.length < r.2.length) then some r
          else some (bw, bc))
    none).map (·.2)

/-- Look-ahead reordering of the candidate list (lines 3607-3757): up to
five trial starting parts, preferring straight-start parts, then the
winning configuration order followed by the rest sorted by length. -/
def lookaheadReorder (bestStock : ℚ) (ptc rps : List NPart) :
    List NPart :=
  let n := min 5 ptc.length
  let straight := ptc.filter fun p => !p.startHasSlope
  let sloped := ptc.filter (·.startHasSlope)
  let candidates := (straight.take n ++ sloped).take n
  match laBest bestStock candidates ptc with
  | some config =>
      config ++ sortDescBy NPart.plen (rps.filter (· ∉ config))
  | none => rps

/-- Flush score of a starting candidate (lines 3765-3802): −1000 for a
sloped start, otherwise the number of other parts whose start can share
the candidate end. -/
def flushScore (rps : List NPart) (ci : Nat) (cand : NPart) : Int :=
  if cand.startHasSlope then -1000
  else
    Int.ofNat ((rps.enum.filter fun oc =>
      decide (oc.1 ≠ ci) &&
        canShareNoSign cand.endHasSlope cand.endAngle
          oc.2.startHasSlope oc.2.startAngle).length)

/-- Best starting part by flush score with length tie-break
(lines 3762-3807). -/
def flushBest (rps : List NPart) : Option NPart × Int :=
  rps.enum.foldl
    (fun acc ic =>
      let score := flushScore rps ic.1 ic.2
      let better :=
        decide (score > acc.2) ||
          (decide (score = acc.2) &&
            (match acc.1 with
             | none => true
             | some b => decide (b.plen < ic.2.plen)))
      if better then (some ic.2, score) else acc)
    (none, -1)

/-- Flush-score based reordering (lines 3759-3817): move the best
starting part to the front when its score is positive, otherwise sort by
length descending. -/
def flushScoreReorder (rps : List NPart) : List NPart :=
  match flushBest rps with
  | (some best, bscore) =>
      if bscore > 0 then best :: rps.erase best
      else sortDescBy NPart.plen rps
  | (none, _) => sortDescBy NPart.plen rps

/-- Reordering when the pattern already has placements (lines
3824-3892): flushable parts first, then parts without an unpaired end
slope, then parts whose end slope has no complement, each group sorted
by length descending. -/
def prioritizeFlush (prevS : Bool) (prevA : Option ℚ) (rps : List NPart) :
    List NPart :=
  let shares := fun p : NPart =>
    canShareNoSign prevS prevA p.startHasSlope p.startAngle
  let canF := rps.filter shares
  let cannotF := rps.filter fun p => !shares p
  let hasComplement := fun p : NPart =>
    rps.any fun other =>
      other ≠ p && other.startHasSlope &&
        (match p.endAngle, other.startAngle with
         | some a, some b => decide (|(|a| - |b|)| ≤ 2)
         | _, _ => false)
  let unpairedEnd := fun p : NPart => p.endHasSlope && !hasComplement p
  let unpaired := cannotF.filter unpairedEnd
  let normal := cannotF.filter fun p => !unpairedEnd p
  sortDescBy NPart.plen canF ++ sortDescBy NPart.plen normal ++
    sortDescBy NPart.plen unpaired

/-- Step 2 candidate reordering dispatch (lines 3607-3896). -/
def reorderStep2 (bestStock : ℚ) (patternParts : List Placement)
    (rps : List NPart) : List NPart :=
  if patternParts = [] ∧ rps ≠ [] then
    let ptc := rps.take 20
    if 3 ≤ ptc.length then lookaheadReorder bestStock ptc rps
    else if rps.length ≤ 50 then flushScoreReorder rps
    else sortDescBy NPart.plen rps
  else
    match patternParts.getLast? with
    | some prev =>
        if rps = [] then sortDescBy NPart.plen rps
        else prioritizeFlush prev.sEndHasSlope prev.sEndAngle rps
    | none => sortDescBy NPart.plen rps

/-- Start/end swap of the greedy-fill flip (lines 3977-3980): angles and
has-slope flags are exchanged, the confidences are not. -/
def flipPart (p : NPart) : NPart :=
  { p with
    startAngle := p.endAngle,
    endAngle := p.startAngle,
    startHasSlope := p.endHasSlope,
    endHasSlope := p.startHasSlope,
    flipped := true }

/-- Kerf and orientation decision for the next placed part (lines
3920-3998): flush against the previous placement when possible, flip
when only the flipped orientation flushes, otherwise insert the kerf. -/
def fillFlush (patternParts : List Placement) (p : NPart) : ℚ × NPart :=
  match patternParts.getLast? with
  | none => (0, p)
  | some prev =>
      if boundaryCanShare prev.sEndHasSlope prev.sEndAngle
          p.startHasSlope p.startAngle then (0, p)
      else if boundaryCanShare prev.sEndHasSlope prev.sEndAngle
          p.endHasSlope p.endAngle then (0, flipPart p)
      else (kerfMM, p)

/-- Replace the first occurrence of a value in a list, modelling the in
place mutation of one Python dict object. -/
def replaceFirst (l : List NPart) (old new : NPart) : List NPart :=
  match l with
  | [] => []
  | a :: t => if a = old then new :: t else a :: replaceFirst t old new

/-- Build state together with the part pool, into which greedy-fill
flips are written back (the Python dicts are shared objects). -/
structure FillSt where
  bst : BuildSt
  pool : List NPart
deriving DecidableEq, Repr

/-- The greedy fill loop over the reordered candidates, lines 3898-4061.
The post-add removal branch at lines 4047-4056 re-checks the tolerance
just established, so it cannot fire, but it is embedded as written; the
exact-fit branch stops the fill while keeping the final part. -/
def fillLoop (bestStock : ℚ) (valid : List NPart) :
    List NPart → FillSt → FillSt
  | [], s => s
  | part :: tl, s =>
    if part ∈ s.bst.partsToRemove then fillLoop bestStock valid tl s
    else if part ∉ valid then fillLoop bestStock valid tl s
    else if s.bst.currentLength > bestStock + tolMM then s
    else
      let fk := fillFlush s.bst.patternParts part
      let kerf := fk.1
      let part2 := fk.2
      let pool2 := if part2 = part then s.pool
        else replaceFirst s.pool part part2
      let newLen := s.bst.currentLength + part2.plen + kerf
      if newLen > bestStock + tolMM then
        fillLoop bestStock valid tl { s with pool := pool2 }
      else
        let pl : Placement :=
          ⟨part2, s.bst.cutPosition, part2.plen, part2.startAngle,
            part2.endAngle, part2.startHasSlope, part2.endHasSlope⟩
        let bst2 :=
          { s.bst with
            patternParts := s.bst.patternParts ++ [pl],
            currentLength := newLen,
            totalPartsLength := s.bst.totalPartsLength + part2.plen,
            cutPosition := s.bst.cutPosition + part2.plen + kerf,
            partsToRemove := s.bst.partsToRemove ++ [part2] }
        if bst2.currentLength > bestStock + tolMM then
          { pool := pool2,
            bst :=
              { bst2 with
                patternParts :=
                  bst2.patternParts.filter fun pp => pp.part ≠ part2,
                currentLength := bst2.currentLength - (part2.plen + kerf),
                totalPartsLength := bst2.totalPartsLength - part2.plen,
                partsToRemove := bst2.partsToRemove.erase part2 } }
        else if |bst2.currentLength - bestStock| ≤ tolMM then
          { pool := pool2, bst := bst2 }
        else fillLoop bestStock valid tl { pool := pool2, bst := bst2 }

/-!
Pattern validation and emission (lines 4085-4301) and the surrounding
while loop (lines 2779-4301).
-/

/-- Result of the validation block for one candidate pattern. -/
inductive FinalizeOutcome where
  | skip
  | reject (entries : List Rejected)
  | emit (pat : Pattern)
deriving DecidableEq, Repr

/-- Validation and emission of a candidate pattern, lines 4085-4294:
reject (recycling the parts) when the running length exceeds the stock
beyond the 0.1mm rounding tolerance, when an unshared pattern exceeds
the stock by its plain part sum, when the running length exceeds the
part sum by more than maximal kerf plus 10mm, or when a placement alone
exceeds the stock; otherwise emit with
waste = stock − min(current_length, stock). -/
def finalizeOutcome (bestStock : ℚ) (pp : List Placement) (cur tot : ℚ) :
    FinalizeOutcome :=
  if pp = [] then .skip
  else if cur > bestStock + tolMM then
    .reject (pp.map fun x =>
      ⟨x.part.pid, x.plen, bestStock, .patternTotalExceeds cur bestStock⟩)
  else if ¬cur < tot - tolMM ∧ tot > bestStock + tolMM then
    .reject (pp.map fun x =>
      ⟨x.part.pid, x.plen, bestStock, .partsLengthExceeds tot bestStock⟩)
  else if cur > tot + kerfMM * ((pp.length - 1 : ℕ) : ℚ) + 10 then
    .reject (pp.map fun x =>
      ⟨x.part.pid, x.plen, bestStock, .calcError cur tot⟩)
  else if pp.filter (fun x => x.plen > bestStock) ≠ [] then
    .reject ((pp.filter fun x => x.plen > bestStock).map fun x =>
      ⟨x.part.pid, x.plen, bestStock, .exceedsSelectedStock x.plen bestStock⟩)
  else
    .emit ⟨bestStock, pp, bestStock - min cur bestStock,
      if bestStock > 0 then (bestStock - min cur bestStock) / bestStock * 100
      else 0⟩

/-- State threaded through the per-profile while loop. -/
structure LoopSt where
  pool : List NPart
  patterns : List Pattern
  rejected : List Rejected
deriving DecidableEq, Repr

/-- One iteration of the while loop (lines 2779-4301): oversize
rejection, stock selection, Step 1 pairing, Step 2 ordering and fill,
used-part removal, validation, emission.  The boolean is true when the
iteration breaks out of the loop. -/
def nestIter (stocks : List ℚ) (depth : ℚ) (tanD : ℚ → ℚ)
    (st : LoopSt) : LoopSt × Bool :=
  match stocks with
  | [] => (st, true)
  | _ :: _ =>
    let longest := qmax stocks
    let oversized := st.pool.filter fun p => p.plen > longest
    let rejected2 := st.rejected ++ oversized.map fun p =>
      ⟨p.pid, p.plen, longest, .exceedsLongestStock p.plen longest⟩
    let pool2 := st.pool.filter fun p => ¬p.plen > longest
    if pool2 = [] then (⟨pool2, st.patterns, rejected2⟩, true)
    else
      match selectStock stocks pool2 with
      | none => (⟨pool2, st.patterns, rejected2⟩, true)
      | some best =>
        let valid := pool2.filter fun p => p.plen ≤ best
        if valid = [] then (⟨pool2, st.patterns, rejected2⟩, true)
        else
          let validSorted := sortDescBy NPart.plen valid
          let bst0 : BuildSt := ⟨[], 0, 0, 0, [], best⟩
          let bst1 := step1Outer stocks depth tanD best validSorted bst0
          let rps := validSorted.filter fun p => p ∉ bst1.partsToRemove
          let rps2 := reorderStep2 best bst1.patternParts rps
          let fillRes := fillLoop best validSorted rps2 ⟨bst1, pool2⟩
          let bst2 := fillRes.bst
          let pool3 :=
            bst2.partsToRemove.foldl (fun acc p => acc.erase p) fillRes.pool
          if bst2.partsToRemove = [] then
            match pool3 with
            | [] => (⟨pool3, st.patterns, rejected2⟩, true)
            | first :: rest =>
                if first.plen > best then
                  (⟨rest, st.patterns, rejected2⟩, false)
                else (⟨pool3, st.patterns, rejected2⟩, true)
          else
            match finalizeOutcome best bst2.patternParts
                bst2.currentLength bst2.totalPartsLength with
            | .skip => (⟨pool3, st.patterns, rejected2⟩, false)
            | .reject entries =>
                let pool4 := bst2.patternParts.foldl
                  (fun acc x => acc.erase x.part) pool3
                (⟨pool4, st.patterns, rejected2 ++ entries⟩, false)
            | .emit pat =>
                (⟨pool3, st.patterns ++ [pat], rejected2⟩, false)

/-- The while loop with its iteration cap (max_iterations, line 2776). -/
def nestLoop (stocks : List ℚ) (depth : ℚ) (tanD : ℚ → ℚ) :
    Nat → LoopSt → LoopSt
  | 0, st => st
  | fuel + 1, st =>
    if st.pool = [] then st
    else
      let r := nestIter stocks depth tanD st
      if r.2 then r.1 else nestLoop stocks depth tanD fuel r.1

/-- Nesting of one profile group: parts, available stock lengths, the
estimated profile depth (extractor._get_estimated_profile_depth applied
to the profile name) and the tangent evaluator. -/
def nestProfile (depth : ℚ) (tanD : ℚ → ℚ) (parts : List NPart)
    (stocks : List ℚ) : LoopSt :=
  nestLoop stocks depth tanD (min (parts.length * 3) 500) ⟨parts, [], []⟩

/-! Basic lemmas about the list helpers. -/

theorem qsum_nonneg {l : List ℚ} (h : ∀ x ∈ l, 0 ≤ x) : 0 ≤ qsum l := by
  induction l with
  | nil => simp [qsum]
  | cons a t ih =>
      have ha := h a (by simp)
      have ht : 0 ≤ qsum t := ih fun x hx => h x (by simp [hx])
      simpa [qsum] using add_nonneg ha ht

theorem qmin_le_qmax {l : List ℚ} (h : l ≠ []) : qmin l ≤ qmax l := by
  match l, h with
  | [a], _ => simp [qmin, qmax]
  | a :: b :: t, _ =>
      calc qmin (a :: b :: t) = min a (qmin (b :: t)) := rfl
        _ ≤ a := min_le_left _ _
        _ ≤ max a (qmax (b :: t)) := le_max_left _ _
        _ = qmax (a :: b :: t) := rfl

theorem qmax_mem {l : List ℚ} (h : l ≠ []) : qmax l ∈ l := by
  induction l with
  | nil => exact absurd rfl h
  | cons a t ih =>
      match t with
      | [] => simp [qmax]
      | b :: t' =>
          have hmem := ih (by simp)
          rcases max_choice a (qmax (b :: t')) with hc | hc
          · simp [qmax, hc]
          · simp only [qmax, hc]
            exact List.mem_cons_of_mem _ hmem

theorem le_qmax {l : List ℚ} {x : ℚ} (h : x ∈ l) : x ≤ qmax l := by
  induction l with
  | nil => simp at h
  | cons a t ih =>
      match t with
      | [] =>
          simp at h
          simp [qmax, h]
      | b :: t' =>
          rcases List.mem_cons.1 h with rfl | hx
          · exact le_max_left _ _
          · exact le_trans (ih hx) (le_max_right _ _)

theorem mem_insertDescBy {key : α → ℚ} {a x : α} {l : List α} :
    x ∈ insertDescBy key a l ↔ x = a ∨ x ∈ l := by
  induction l with
  | nil => simp [insertDescBy]
  | cons b t ih =>
      by_cases h : key b < key a
      · simp only [insertDescBy, if_pos h, List.mem_cons]
      · simp only [insertDescBy, if_neg h, List.mem_cons, ih]
        tauto

theorem mem_sortDescBy {key : α → ℚ} {x : α} {l : List α} :
    x ∈ sortDescBy key l ↔ x ∈ l := by
  suffices h : ∀ acc : List α,
      x ∈ l.foldl (fun acc a => insertDescBy key a acc) acc ↔
        x ∈ acc ∨ x ∈ l by
    simpa [sortDescBy] using h []
  induction l with
  | nil => simp
  | cons a t ih =>
      intro acc
      simp only [List.foldl_cons, ih, mem_insertDescBy, List.mem_cons]
      tauto

/-- Descending sortedness by a key. -/
abbrev SortedDescBy (key : α → ℚ) (l : List α) : Prop :=
  l.Pairwise fun a b => key b ≤ key a

theorem sortedDescBy_insert {key : α → ℚ} {a : α} {l : List α}
    (h : SortedDescBy key l) : SortedDescBy key (insertDescBy key a l) := by
  induction l with
  | nil => simp [insertDescBy, SortedDescBy]
  | cons b t ih =>
      rcases List.pairwise_cons.1 h with ⟨hb, ht⟩
      by_cases hba : key b < key a
      · rw [insertDescBy, if_pos hba]
        refine List.pairwise_cons.2 ⟨?_, h⟩
        intro y hy
        rcases List.mem_cons.1 hy with rfl | hyt
        · exact le_of_lt hba
        · exact le_trans (hb y hyt) (le_of_lt hba)
      · rw [insertDescBy, if_neg hba]
        refine List.pairwise_cons.2 ⟨?_, ih ht⟩
        intro y hy
        rcases mem_insertDescBy.1 hy with rfl | hyt
        · exact le_of_not_lt hba
        · exact hb y hyt

theorem sortedDescBy_sortDescBy {key : α → ℚ} (l : List α) :
    SortedDescBy key (sortDescBy key l) := by
  suffices h : ∀ acc : List α, SortedDescBy key acc →
      SortedDescBy key (l.foldl (fun acc a => insertDescBy key a acc) acc) by
    exact h [] (by simp [SortedDescBy])
  induction l with
  | nil => intro acc hacc; simpa using hacc
  | cons a t ih =>
      intro acc hacc
      exact ih _ (sortedDescBy_insert hacc)

theorem sortedDescBy_head_le {key : α → ℚ} {a : α} {t : List α}
    (h : SortedDescBy key (a :: t)) : ∀ x ∈ a :: t, key x ≤ key a := by
  intro x hx
  rcases List.mem_cons.1 hx with rfl | hxt
  · exact le_refl _
  · exact (List.pairwise_cons.1 h).1 x hxt

theorem sortedDescBy_getLast_le {key : α → ℚ} :
    ∀ {l : List α} (h : SortedDescBy key l) (hne : l ≠ []),
      ∀ x ∈ l, key (l.getLast hne) ≤ key x := by
  intro l
  induction l with
  | nil => intro _ hne; exact absurd rfl hne
  | cons a t ih =>
      intro h hne x hx
      match t with
      | [] =>
          simp at hx
          simp [hx]
      | b :: t' =>
          rcases List.pairwise_cons.1 h with ⟨ha, ht⟩
          have hlast : (a :: b :: t').getLast hne = (b :: t').getLast (by simp) := by
            simp [List.getLast]
          rw [hlast]
          rcases List.mem_cons.1 hx with rfl | hxt
          · exact le_trans
              (ih ht (by simp) _ (List.getLast_mem (by simp))) (ha _ (List.getLast_mem (by simp)))
          · exact ih ht (by simp) x hxt

theorem sortedDescBy_filter {key : α → ℚ} {p : α → Bool} {l : List α}
    (h : SortedDescBy key l) : SortedDescBy key (l.filter p) :=
  List.Pairwise.filter p h

/-! Claim theorems for the geometry extractor. -/

/-- C5: for every end-cut plane fit, the returned confidence equals
max(0, 1 − mean_residual / tolerance), where mean_residual is the mean
absolute distance of the captured points from the fitted plane (the mean
of |dot(point − centroid, normal)|, which is that distance for the unit
normal the fit produces) and the tolerance is the fixed 2.0mm constant;
a zero residual gives confidence exactly 1 and a residual equal to the
tolerance gives confidence exactly 0. -/
theorem c5_fit_confidence :
    planeResidualMm = 2 ∧
    (∀ pts n, fitConfidence pts n =
      max 0 (1 - meanAbsResidual pts n / planeResidualMm)) ∧
    (∀ pts n, meanAbsResidual pts n = 0 → fitConfidence pts n = 1) ∧
    (∀ pts n, meanAbsResidual pts n = planeResidualMm →
      fitConfidence pts n = 0) := by
  refine ⟨rfl, fun _ _ => rfl, ?_, ?_⟩
  · intro pts n h
    simp [fitConfidence, h]
  · intro pts n h
    simp [fitConfidence, h, planeResidualMm]

/-- C5 witness: a coplanar capture yields residual 0 and confidence 1, a
capture scattered exactly 2mm on both sides of its plane yields residual
2 and confidence 0. -/
theorem c5_fit_confidence_witness :
    meanAbsResidual [⟨0, 0, 0⟩, ⟨0, 1, 0⟩, ⟨0, 0, 1⟩] ⟨1, 0, 0⟩ = 0 ∧
    fitConfidence [⟨0, 0, 0⟩, ⟨0, 1, 0⟩, ⟨0, 0, 1⟩] ⟨1, 0, 0⟩ = 1 ∧
    meanAbsResidual [⟨2, 0, 0⟩, ⟨-2, 0, 0⟩] ⟨1, 0, 0⟩ = planeResidualMm ∧
    fitConfidence [⟨2, 0, 0⟩, ⟨-2, 0, 0⟩] ⟨1, 0, 0⟩ = 0 :=
  ⟨by decide!, c5_fit_confidence.2.2.1 _ _ (by decide!), by decide!,
    c5_fit_confidence.2.2.2 _ _ (by decide!)⟩

/-- C7: the unit-scale classifier returns 1.0 (meters) when the sampled
average is below 1, 0.001 (millimeters) when it exceeds 1000, and breaks
the mid-range tie at 10: above 10 millimeters, at 10 or below meters;
it never returns any other factor. -/
theorem c7_unit_scale :
    (∀ ls : List ℚ, ls ≠ [] →
      (qsum ls / ls.length < 1 → detectUnitScale ls = 1) ∧
      (qsum ls / ls.length > 1000 → detectUnitScale ls = 1 / 1000) ∧
      (1 ≤ qsum ls / ls.length → qsum ls / ls.length ≤ 1000 →
        10 < qsum ls / ls.length → detectUnitScale ls = 1 / 1000) ∧
      (1 ≤ qsum ls / ls.length → qsum ls / ls.length ≤ 10 →
        detectUnitScale ls = 1)) ∧
    (∀ ls : List ℚ, detectUnitScale ls = 1 ∨ detectUnitScale ls = 1 / 1000) := by
  constructor
  · intro ls hne
    refine ⟨?_, ?_, ?_, ?_⟩ <;> intros <;>
      simp only [detectUnitScale, if_neg hne] <;> split_ifs <;>
      first | rfl | linarith
  · intro ls
    simp only [detectUnitScale]
    split_ifs <;> simp

/-- C7 witness: sample averages 1/2, 2000, 12 and 9 land in the four
classification branches. -/
theorem c7_unit_scale_witness :
    detectUnitScale [1 / 2] = 1 ∧ detectUnitScale [2000] = 1 / 1000 ∧
    detectUnitScale [12] = 1 / 1000 ∧ detectUnitScale [9] = 1 :=
  ⟨(c7_unit_scale.1 [1 / 2] (by decide)).1 (by norm_num [qsum]),
   (c7_unit_scale.1 [2000] (by decide)).2.1 (by norm_num [qsum]),
   (c7_unit_scale.1 [12] (by decide)).2.2.1 (by norm_num [qsum])
     (by norm_num [qsum]) (by norm_num [qsum]),
   (c7_unit_scale.1 [9] (by decide)).2.2.2 (by norm_num [qsum])
     (by norm_num [qsum])⟩

/-- C6: the mesh-based extracted length is the linear extent along the
dominant axis — the difference between maximal and minimal vertex
projections — both in _extract_from_mesh and in the overriding
recomputation of _detect_end_cuts_from_vertices; on a beveled synthetic
piece it therefore differs from the Euclidean distance between the
extreme vertices (compared through squared distances to stay rational:
the axial length is 11 while both candidate Euclidean endpoint distances
have squares other than 121). -/
theorem c6_mesh_length_axial :
    (∀ (vs : List V3) (axis : V3), vs ≠ [] → dot3 axis axis = 1 →
      meshLength vs axis =
        qmax (projections vs axis) - qmin (projections vs axis) ∧
      actualLengthFromVertices vs axis =
        qmax (projections vs axis) - qmin (projections vs axis)) ∧
    meshLength [⟨0, 0, 0⟩, ⟨0, 1, 0⟩, ⟨11, 2, 0⟩, ⟨10, 3, 0⟩] ⟨1, 0, 0⟩ = 11 ∧
    sqDist ⟨11, 2, 0⟩ ⟨0, 0, 0⟩ ≠ 11 ^ 2 ∧
    sqDist ⟨11, 2, 0⟩ ⟨0, 1, 0⟩ ≠ 11 ^ 2 := by
  refine ⟨?_, by decide!, by decide!, by decide!⟩
  intro vs axis hne haxis
  have hproj : projections vs axis ≠ [] := by
    simp [projections, hne]
  have hdot : dot3 (sub3 (meshEnd vs axis) (meshStart vs axis)) axis =
      (qmax (projections vs axis) - qmin (projections vs axis)) *
        dot3 axis axis := by
    simp only [meshEnd, meshStart, sub3, add3, smul3, dot3]
    ring
  constructor
  · rw [meshLength, hdot, haxis, mul_one]
    exact abs_of_nonneg (sub_nonneg.2 (qmin_le_qmax hproj))
  · rfl

/-! Helper lemmas for the real-valued plane-fit claims. -/

theorem dot3R_negR_left (a b : V3R) : dot3R (negR a) b = -dot3R a b := by
  simp only [dot3R, negR]
  ring

theorem meanAbsResidual_nonneg (pts : List V3) (n : V3) :
    0 ≤ meanAbsResidual pts n := by
  refine div_nonneg (qsum_nonneg ?_) (by positivity)
  intro x hx
  rcases List.mem_map.1 hx with ⟨p, _, rfl⟩
  exact abs_nonneg _

theorem one_add_normEpsR_pos : (0 : ℝ) < 1 + normEpsR := by
  rw [normEpsR]
  norm_num

/-- For a unit SVD vector the normalization denominator is exactly
1 + 1e-10, so the squared length of the stored normal is
(1/(1+1e-10))², for either sign choice of the orientation step. -/
theorem fitNormal_sq {v : V3R} (axis : V3R) (hv : dot3R v v = 1) :
    dot3R (fitNormal v axis) (fitNormal v axis) = (1 / (1 + normEpsR)) ^ 2 := by
  have hn : norm3R v = 1 := by rw [norm3R, hv, Real.sqrt_one]
  have hsq : ∀ c : ℝ, dot3R (smulR c v) (smulR c v) = c ^ 2 * dot3R v v := by
    intro c
    simp only [dot3R, smulR]
    ring
  have hneg : ∀ a : V3R, dot3R (negR a) (negR a) = dot3R a a := by
    intro a
    simp only [dot3R, negR]
    ring
  rw [fitNormal, orientFit]
  split_ifs
  · rw [hneg, normalizeFit, hn, hsq, hv, mul_one]
  · rw [normalizeFit, hn, hsq, hv, mul_one]

/-- C8: evaluation of the embedded _fit_end_plane orientation step.  The
sign flip of lines 881-882 makes the dot product of the stored normal
with the piece axis nonnegative for every input, for the start extremity
exactly as for the end extremity; at the concrete start cluster whose
best-fit normal is (−1,0,0) — the outward direction at a start cut on a
piece whose axis is (1,0,0) — the function returns the inward normal,
with positive dot product 1/(1+1e-10), contradicting both the claim and
the source comment "For start end: normal should point opposite to
axis". -/
theorem c8_fit_normal_orientation :
    (∀ v axis : V3R, 0 ≤ dot3R (fitNormal v axis) axis) ∧
    dot3R (fitNormal ⟨-1, 0, 0⟩ ⟨1, 0, 0⟩) ⟨1, 0, 0⟩ = 1 / (1 + normEpsR) ∧
    0 < dot3R (fitNormal ⟨-1, 0, 0⟩ ⟨1, 0, 0⟩) ⟨1, 0, 0⟩ := by
  have hpos : (0 : ℝ) < 1 / (1 + normEpsR) := by
    rw [normEpsR]
    norm_num
  have hval : dot3R (fitNormal ⟨-1, 0, 0⟩ ⟨1, 0, 0⟩) ⟨1, 0, 0⟩ =
      1 / (1 + normEpsR) := by
    have hd : dot3R ⟨-1, 0, 0⟩ ⟨-1, 0, 0⟩ = (1 : ℝ) := by
      simp [dot3R]
    have hn : norm3R ⟨-1, 0, 0⟩ = 1 := by rw [norm3R, hd, Real.sqrt_one]
    have hdot : dot3R (normalizeFit ⟨-1, 0, 0⟩) ⟨1, 0, 0⟩ =
        -(1 / (1 + normEpsR)) := by
      rw [normalizeFit, hn]
      simp only [dot3R, smulR]
      ring
    have hneg : dot3R (normalizeFit ⟨-1, 0, 0⟩) ⟨1, 0, 0⟩ < 0 := by
      rw [hdot]
      exact neg_neg_of_pos hpos
    rw [fitNormal, orientFit, if_pos hneg, dot3R_negR_left, hdot, neg_neg]
  refine ⟨?_, hval, hval ▸ hpos⟩
  intro v axis
  by_cases h : dot3R (normalizeFit v) axis < 0
  · rw [fitNormal, orientFit, if_pos h, dot3R_negR_left]
    exact le_of_lt (neg_pos.2 h)
  · rw [fitNormal, orientFit, if_neg h]
    exact le_of_not_lt h

/-- C10 (amended): every fitted end cut has angle_deg in [0, 90] — the
arccos of a clipped absolute dot product, scaled to degrees, is never
negative and never exceeds 90, so no two fitted cuts carry
opposite-signed angles — and confidence in [0, 1]; the stored normal is
not exactly unit but has squared length (1/(1+1e-10))², within 10⁻⁹ of
one, because the SVD unit vector is divided by its norm plus the 1e-10
guard. -/
theorem c10_fit_endcut_ranges :
    (∀ n axis : V3R, 0 ≤ fitAngleDeg n axis ∧ fitAngleDeg n axis ≤ 90) ∧
    (∀ pts n, 0 ≤ fitConfidence pts n ∧ fitConfidence pts n ≤ 1) ∧
    (∀ v axis : V3R, dot3R v v = 1 →
      dot3R (fitNormal v axis) (fitNormal v axis) = (1 / (1 + normEpsR)) ^ 2 ∧
      |dot3R (fitNormal v axis) (fitNormal v axis) - 1| < 1 / 10 ^ 9) := by
  refine ⟨?_, ?_, ?_⟩
  · intro n axis
    set x := clip01 |dot3R n axis| with hx
    have hx0 : 0 ≤ x := by
      rw [hx, clip01]
      exact le_min (le_max_right _ _) zero_le_one
    have harc0 : 0 ≤ Real.arccos x := Real.arccos_nonneg x
    have harc : Real.arccos x ≤ Real.pi / 2 :=
      Real.arccos_le_pi_div_two.2 hx0
    constructor
    · exact div_nonneg (mul_nonneg harc0 (by norm_num)) (le_of_lt Real.pi_pos)
    · have h1 : Real.arccos x * 180 ≤ Real.pi / 2 * 180 :=
        mul_le_mul_of_nonneg_right harc (by norm_num)
      have h2 : Real.arccos x * 180 / Real.pi ≤ Real.pi / 2 * 180 / Real.pi :=
        (div_le_div_right Real.pi_pos).2 h1
      have h3 : Real.pi / 2 * 180 / Real.pi = 90 := by
        field_simp
        ring
      calc fitAngleDeg n axis = Real.arccos x * 180 / Real.pi := rfl
        _ ≤ Real.pi / 2 * 180 / Real.pi := h2
        _ = 90 := h3
  · intro pts n
    refine ⟨le_max_left _ _, ?_⟩
    have hres : 0 ≤ meanAbsResidual pts n / planeResidualMm :=
      div_nonneg (meanAbsResidual_nonneg pts n) (by norm_num [planeResidualMm])
    exact max_le (by norm_num) (by linarith)
  · intro v axis hv
    refine ⟨fitNormal_sq axis hv, ?_⟩
    rw [fitNormal_sq axis hv, abs_sub_lt_iff]
    constructor <;> · rw [normEpsR]; norm_num

/-- C10 counterexample: at the unit SVD vector (1,0,0) with axis (1,0,0)
the stored normal does not have unit length — its squared length differs
from 1, refuting the claim that the returned normal is a unit vector. -/
theorem c10_fit_normal_not_unit :
    dot3R (fitNormal ⟨1, 0, 0⟩ ⟨1, 0, 0⟩) (fitNormal ⟨1, 0, 0⟩ ⟨1, 0, 0⟩) ≠ 1 := by
  have hd : dot3R ⟨1, 0, 0⟩ ⟨1, 0, 0⟩ = (1 : ℝ) := by simp [dot3R]
  rw [fitNormal_sq ⟨1, 0, 0⟩ hd]
  rw [normEpsR]
  norm_num

/-- C10 witness: the amended theorem applied at the unit SVD vector
(1,0,0) and axis (1,0,0). -/
theorem c10_fit_endcut_ranges_witness :
    dot3R ⟨1, 0, 0⟩ ⟨1, 0, 0⟩ = (1 : ℝ) ∧
    dot3R (fitNormal ⟨1, 0, 0⟩ ⟨1, 0, 0⟩) (fitNormal ⟨1, 0, 0⟩ ⟨1, 0, 0⟩) =
      (1 / (1 + normEpsR)) ^ 2 ∧
    |dot3R (fitNormal ⟨1, 0, 0⟩ ⟨1, 0, 0⟩) (fitNormal ⟨1, 0, 0⟩ ⟨1, 0, 0⟩) - 1| <
      1 / 10 ^ 9 := by
  have hd : dot3R ⟨1, 0, 0⟩ ⟨1, 0, 0⟩ = (1 : ℝ) := by simp [dot3R]
  exact ⟨hd, (c10_fit_endcut_ranges.2.2 ⟨1, 0, 0⟩ ⟨1, 0, 0⟩ hd).1,
    (c10_fit_endcut_ranges.2.2 ⟨1, 0, 0⟩ ⟨1, 0, 0⟩ hd).2⟩

/-- C6 witness: the general part applied to the concrete beveled piece. -/
theorem c6_mesh_length_axial_witness :
    meshLength [⟨0, 0, 0⟩, ⟨0, 1, 0⟩, ⟨11, 2, 0⟩, ⟨10, 3, 0⟩] ⟨1, 0, 0⟩ =
      qmax (projections [⟨0, 0, 0⟩, ⟨0, 1, 0⟩, ⟨11, 2, 0⟩, ⟨10, 3, 0⟩] ⟨1, 0, 0⟩) -
        qmin (projections [⟨0, 0, 0⟩, ⟨0, 1, 0⟩, ⟨11, 2, 0⟩, ⟨10, 3, 0⟩] ⟨1, 0, 0⟩) :=
  (c6_mesh_length_axial.1 _ _ (by decide) (by decide!)).1

/-! Claim theorems for the nesting optimizer. -/

theorem fitsAll_iff {parts : List NPart} {s : ℚ} :
    fitsAll parts s = true ↔ totalLen parts ≤ s ∧ ∀ p ∈ parts, p.plen ≤ s := by
  simp [fitsAll]

theorem sortedDescBy_getLast?_le {key : α → ℚ} :
    ∀ {l : List α} {m : α}, SortedDescBy key l → l.getLast? = some m →
      ∀ x ∈ l, key m ≤ key x := by
  intro l
  induction l with
  | nil => intro m _ hm; simp at hm
  | cons a t ih =>
      intro m hs hm x hx
      match t with
      | [] =>
          simp at hm hx
          simp [hm, hx]
      | b :: t' =>
          rcases List.pairwise_cons.1 hs with ⟨ha, ht⟩
          rw [List.getLast?_cons_cons] at hm
          have hmmem : m ∈ b :: t' := List.mem_of_getLast?_eq_some hm
          rcases List.mem_cons.1 hx with rfl | hxt
          · exact le_trans (ih ht hm m hmmem) (ha m hmmem)
          · exact ih ht hm x hxt

/-- C9: stock-length selection.  When at least one available stock can
hold all remaining pieces together (total combined length fits and no
individual piece exceeds it), the optimizer selects the shortest such
stock; when none can, it selects the longest available stock, which is
in particular the longest stock holding the largest remaining piece. -/
theorem c9_stock_selection :
    (∀ (stocks : List ℚ) (parts : List NPart) (s₀ : ℚ),
      s₀ ∈ stocks → fitsAll parts s₀ = true →
      ∃ m, selectStock stocks parts = some m ∧ m ∈ stocks ∧
        fitsAll parts m = true ∧ ∀ s ∈ stocks, fitsAll parts s = true → m ≤ s) ∧
    (∀ (stocks : List ℚ) (parts : List NPart),
      stocks ≠ [] → (∀ s ∈ stocks, ¬fitsAll parts s = true) →
      largestLen parts ≤ qmax stocks →
      selectStock stocks parts = some (qmax stocks) ∧
        ∀ s ∈ stocks, s ≤ qmax stocks) := by
  constructor
  · intro stocks parts s₀ hs₀ hfit
    have hmem : s₀ ∈ (sortDescBy id stocks).filter (fitsAll parts) :=
      List.mem_filter.2 ⟨mem_sortDescBy.2 hs₀, hfit⟩
    have hsorted : SortedDescBy id ((sortDescBy id stocks).filter (fitsAll parts)) :=
      sortedDescBy_filter (sortedDescBy_sortDescBy stocks)
    rcases hc : (sortDescBy id stocks).filter (fitsAll parts) with _ | ⟨c, cs⟩
    · rw [hc] at hmem
      simp at hmem
    · rw [hc] at hmem hsorted
      rcases hm : (c :: cs).getLast? with _ | m
      · simp [List.getLast?_eq_getLast (c :: cs) (by simp)] at hm
      · have hmmem : m ∈ c :: cs := List.mem_of_getLast?_eq_some hm
        have hmfilter : m ∈ (sortDescBy id stocks).filter (fitsAll parts) := by
          rw [hc]
          exact hmmem
        have hmst : m ∈ stocks :=
          mem_sortDescBy.1 (List.mem_filter.1 hmfilter).1
        have hmfit : fitsAll parts m = true :=
          (List.mem_filter.1 hmfilter).2
        have hmin : ∀ x ∈ c :: cs, m ≤ x := fun x hx =>
          sortedDescBy_getLast?_le hsorted hm x hx
        refine ⟨m, ?_, hmst, hmfit, ?_⟩
        · rcases cs with _ | ⟨c2, rest⟩
          · simp at hm
            rw [selectStock, hc, hm]
          · have hlast := List.getLast?_eq_getLast (c :: c2 :: rest) (by simp)
            rw [hm] at hlast
            have hmeq : (c :: c2 :: rest).getLast (by simp) = m := by
              have := hlast.symm
              simpa using this
            have htot := (fitsAll_iff.1 hmfit).1
            rw [selectStock, hc]
            simp only [hmeq, if_pos htot]
        · intro s hs hsfit
          have hsc : s ∈ c :: cs := by
            rw [← hc]
            exact List.mem_filter.2 ⟨mem_sortDescBy.2 hs, hsfit⟩
          exact hmin s hsc
  · intro stocks parts hne hnofit hlarge
    have hcands : (sortDescBy id stocks).filter (fitsAll parts) = [] := by
      rw [List.filter_eq_nil_iff]
      intro s hs
      exact fun h => hnofit s (mem_sortDescBy.1 hs) h
    set cl := (sortDescBy id stocks).filter
      (fun s => decide (largestLen parts ≤ s)) with hcl
    have hqmem : qmax stocks ∈ cl := by
      rw [hcl]
      exact List.mem_filter.2
        ⟨mem_sortDescBy.2 (qmax_mem hne), by simpa using hlarge⟩
    have hclsorted : SortedDescBy id cl :=
      sortedDescBy_filter (sortedDescBy_sortDescBy stocks)
    rcases hc : cl with _ | ⟨h, t⟩
    · rw [hc] at hqmem
      simp at hqmem
    · have hhead : h ∈ cl := by
        rw [hc]
        simp
      have hhs : h ∈ stocks := by
        rw [hcl] at hhead
        exact mem_sortDescBy.1 (List.mem_filter.1 hhead).1
      have hqle : qmax stocks ≤ h := by
        have := sortedDescBy_head_le (hc ▸ hclsorted) (qmax stocks) (hc ▸ hqmem)
        exact this
      have hle : h ≤ qmax stocks := le_qmax hhs
      have heq : h = qmax stocks := le_antisymm hle hqle
      constructor
      · rw [selectStock, hcands, ← hcl, hc]
        simp [heq]
      · intro s hs
        exact le_qmax hs

/-! Helper lemmas about pattern validation and the loop. -/

theorem finalizeOutcome_emit {best : ℚ} {pp : List Placement} {cur tot : ℚ}
    {pat : Pattern} (h : finalizeOutcome best pp cur tot = .emit pat) :
    pat.stockLength = best ∧ pat.parts = pp ∧
    pat.waste = best - min cur best ∧ 0 ≤ pat.waste ∧ cur ≤ best + tolMM := by
  unfold finalizeOutcome at h
  split_ifs at h with h1 h2 h3 h4 h5 <;> try simp at h
  all_goals
    cases h
  all_goals
    exact ⟨rfl, rfl, rfl, sub_nonneg.2 (min_le_right _ _), le_of_not_lt h2⟩

theorem nestIter_patterns (stocks : List ℚ) (depth : ℚ) (tanD : ℚ → ℚ)
    (st : LoopSt) :
    (nestIter stocks depth tanD st).1.patterns = st.patterns ∨
    ∃ pat, (nestIter stocks depth tanD st).1.patterns = st.patterns ++ [pat]
      ∧ 0 ≤ pat.waste := by
  simp only [nestIter]
  repeat' split
  all_goals try (left; rfl)
  all_goals
    rename_i heq
    right
    exact ⟨_, rfl, (finalizeOutcome_emit heq).2.2.2.1⟩

theorem nestIter_waste {stocks : List ℚ} {depth : ℚ} {tanD : ℚ → ℚ}
    {st : LoopSt} (h : ∀ pat ∈ st.patterns, 0 ≤ pat.waste) :
    ∀ pat ∈ (nestIter stocks depth tanD st).1.patterns, 0 ≤ pat.waste := by
  intro pat hpat
  rcases nestIter_patterns stocks depth tanD st with he | ⟨p2, he, hw⟩
  · rw [he] at hpat
    exact h pat hpat
  · rw [he] at hpat
    rcases List.mem_append.1 hpat with hq | hq
    · exact h pat hq
    · rcases List.mem_singleton.1 hq with rfl
      exact hw

theorem nestLoop_waste (stocks : List ℚ) (depth : ℚ) (tanD : ℚ → ℚ) :
    ∀ (fuel : Nat) (st : LoopSt),
      (∀ pat ∈ st.patterns, 0 ≤ pat.waste) →
      ∀ pat ∈ (nestLoop stocks depth tanD fuel st).patterns, 0 ≤ pat.waste := by
  intro fuel
  induction fuel with
  | zero => intro st h; exact h
  | succ n ih =>
      intro st h pat hpat
      simp only [nestLoop] at hpat
      by_cases hpool : st.pool = []
      · rw [if_pos hpool] at hpat
        exact h pat hpat
      · rw [if_neg hpool] at hpat
        by_cases hstop : (nestIter stocks depth tanD st).2 = true
        · rw [if_pos hstop] at hpat
          exact nestIter_waste h pat hpat
        · rw [if_neg hstop] at hpat
          exact ih _ (nestIter_waste h) pat hpat

/-- Square-ended 2000mm scenario part. -/
def squarePartA : NPart := ⟨1, 2000, none, none, false, false, 0, 0, false⟩

/-- Square-ended 3000mm scenario part. -/
def squarePartB : NPart := ⟨2, 3000, none, none, false, false, 0, 0, false⟩

/-- Tangent evaluator for slope-free runs (never consulted). -/
def tanUnused : ℚ → ℚ := fun _ => 0

/-- First piece of the over-tolerance counterexample: 3000.03mm,
square-ended. -/
def overPartA : NPart := ⟨1, 300003 / 100, none, none, false, false, 0, 0, false⟩

/-- Second piece of the over-tolerance counterexample. -/
def overPartB : NPart := ⟨2, 300003 / 100, none, none, false, false, 0, 0, false⟩

/-- C1 counterexample: two square 3000.03mm pieces on one 6000mm stock
flush without kerf, so the running length of the emitted pattern is
6000.06mm (the second placement starts exactly at 3000.03, the end of
the first, so the consumed running length is the sum of the placement
lengths).  The pattern is emitted — 6000.06 is inside the 0.1mm
tolerance — with waste 0, while stock_length − consumed = −0.06 ≠ 0:
waste does not equal stock_length minus the consumed material. -/
theorem c1_waste_counterexample :
    nestProfile 200 tanUnused [overPartA, overPartB] [6000] =
      ⟨[], [⟨6000,
        [⟨overPartA, 0, 300003 / 100, none, none, false, false⟩,
         ⟨overPartB, 300003 / 100, 300003 / 100, none, none, false, false⟩],
        0, 0⟩], []⟩ ∧
    (300003 : ℚ) / 100 + 300003 / 100 = 300003 / 50 ∧
    (300003 : ℚ) / 50 ≤ 6000 + tolMM ∧
    (6000 : ℚ) - 300003 / 50 ≠ 0 := by
  refine ⟨?_, ?_, ?_, ?_⟩
  · decide!
  · norm_num
  · norm_num [tolMM]
  · norm_num

/-- C1 (amended): a pattern is emitted only when its running length
(after shared-cut savings and kerfs) is at most the stock length plus
the 0.1mm rounding tolerance; the emitted waste equals the stock length
minus the consumed material capped at the stock length
(stock − min(consumed, stock)) and is therefore never negative; a
candidate whose running length exceeds stock + 0.1mm is rejected before
acceptance, its pieces recycled, and no pattern is emitted for it; and
every pattern any full optimizer run emits has nonnegative waste. -/
theorem c1_waste_invariant :
    (∀ (best : ℚ) (pp : List Placement) (cur tot : ℚ) (pat : Pattern),
      finalizeOutcome best pp cur tot = .emit pat →
      pat.stockLength = best ∧ pat.parts = pp ∧
      pat.waste = best - min cur best ∧ 0 ≤ pat.waste ∧ cur ≤ best + tolMM) ∧
    (∀ (best : ℚ) (pp : List Placement) (cur tot : ℚ),
      pp ≠ [] → cur > best + tolMM →
      finalizeOutcome best pp cur tot =
        .reject (pp.map fun x =>
          ⟨x.part.pid, x.plen, best, .patternTotalExceeds cur best⟩)) ∧
    (∀ (depth : ℚ) (tanD : ℚ → ℚ) (parts : List NPart) (stocks : List ℚ),
      ∀ pat ∈ (nestProfile depth tanD parts stocks).patterns,
        0 ≤ pat.waste) := by
  refine ⟨fun _ _ _ _ _ h => finalizeOutcome_emit h, ?_, ?_⟩
  · intro best pp cur tot hpp hover
    unfold finalizeOutcome
    rw [if_neg hpp, if_pos hover]
  · intro depth tanD parts stocks pat hpat
    exact nestLoop_waste stocks depth tanD _ _ (by simp) pat hpat

/-- C1 witness: the emission clause at a concrete accepted pattern, the
rejection clause at a concrete over-length candidate, and the whole-run
clause at a one-piece run. -/
theorem c1_waste_invariant_witness :
    ((⟨6000, [⟨squarePartB, 0, 3000, none, none, false, false⟩], 3000, 50⟩ :
        Pattern).stockLength = 6000 ∧
      (⟨6000, [⟨squarePartB, 0, 3000, none, none, false, false⟩], 3000, 50⟩ :
        Pattern).parts = [⟨squarePartB, 0, 3000, none, none, false, false⟩] ∧
      (⟨6000, [⟨squarePartB, 0, 3000, none, none, false, false⟩], 3000, 50⟩ :
        Pattern).waste = 6000 - min 3000 6000 ∧
      0 ≤ (⟨6000, [⟨squarePartB, 0, 3000, none, none, false, false⟩], 3000, 50⟩ :
        Pattern).waste ∧
      (3000 : ℚ) ≤ 6000 + tolMM) ∧
    finalizeOutcome 6000 [⟨squarePartB, 0, 3000, none, none, false, false⟩]
        7000 7000 =
      .reject [⟨2, 3000, 6000, .patternTotalExceeds 7000 6000⟩] ∧
    0 ≤ (⟨6000, [⟨squarePartB, 0, 3000, none, none, false, false⟩], 3000, 50⟩ :
      Pattern).waste := by
  refine ⟨?_, ?_, ?_⟩
  · have hemit : finalizeOutcome 6000
        [⟨squarePartB, 0, 3000, none, none, false, false⟩] 3000 3000 =
        .emit (⟨6000, [⟨squarePartB, 0, 3000, none, none, false, false⟩],
          3000, 50⟩ : Pattern) := by
      decide!
    exact c1_waste_invariant.1 6000 _ 3000 3000 _ hemit
  · have h := c1_waste_invariant.2.1 6000
      [⟨squarePartB, 0, 3000, none, none, false, false⟩] 7000 7000
      (by decide) (by norm_num [tolMM])
    simpa [squarePartB] using h
  · have hmem : (⟨6000, [⟨squarePartB, 0, 3000, none, none, false, false⟩],
        3000, 50⟩ : Pattern) ∈
        (nestProfile 200 tanUnused [squarePartB] [6000]).patterns := by
      decide!
    exact c1_waste_invariant.2.2 200 tanUnused [squarePartB] [6000] _ hmem

/-- First scenario part of the complementary-pair test: 3000mm, square
start, 45-degree end cut. -/
def pairPartA : NPart := ⟨1, 3000, none, some 45, false, true, 1, 1, false⟩

/-- Second scenario part, identical geometry with its own id. -/
def pairPartB : NPart := ⟨2, 3000, none, some 45, false, true, 1, 1, false⟩

/-- Idealized tangent evaluator for the 45-degree scenario: the only
angle the run consults is 45 degrees, where tan(45·π/180) = 1 exactly in
real arithmetic. -/
def tanAt45 : ℚ → ℚ := fun _ => 1

/-- C2: for every accepted complementary pair the combined consumed
length is length₁ + length₂ − shared, where shared is
cross_section_depth · tan(angle) clamped to at most the fixed fraction
9/10 of the smaller length; every code path of the pairing body either
leaves the running length unchanged or adds exactly that combined
length; and the concrete 45-degree scenario — two 3000mm pieces with
matching 45-degree end cuts, 200mm cross-section depth, one 6000mm
stock — is packed into a single pattern whose second placement starts
at 2800mm (consumed length 5800 = 6000 − 200·tan 45°) with waste
200mm. -/
theorem c2_complementary_pair :
    (∀ (depth l1 l2 : ℚ) (tanD : ℚ → ℚ) (a : ℚ),
      0 ≤ l1 → 0 ≤ l2 → 1 < |a| →
      (pairSharedAndCombined depth l1 l2 tanD (some a)).2
        = l1 + l2 - (pairSharedAndCombined depth l1 l2 tanD (some a)).1 ∧
      (pairSharedAndCombined depth l1 l2 tanD (some a)).1
        = (if depth * tanD |a| > min l1 l2 * sharedCapFraction
            then min l1 l2 * sharedCapFraction else depth * tanD |a|) ∧
      (pairSharedAndCombined depth l1 l2 tanD (some a)).1
        ≤ min l1 l2 * sharedCapFraction) ∧
    (∀ (stocks : List ℚ) (depth : ℚ) (tanD : ℚ → ℚ) (bestStock : ℚ)
      (p1 : NPart) (p1s p1e : Bool) (p2 : NPart) (p2s p2e : Bool)
      (pt : PairType) (st : BuildSt),
      (step1TryPair stocks depth tanD bestStock p1 p1s p1e p2 p2s p2e pt
          st).1.currentLength = st.currentLength ∨
      (step1TryPair stocks depth tanD bestStock p1 p1s p1e p2 p2s p2e pt
          st).1.currentLength = st.currentLength +
        (pairSharedAndCombined depth p1.plen p2.plen tanD
          (pairCalcAngle pt p1 p2)).2) ∧
    nestProfile 200 tanAt45 [pairPartA, pairPartB] [6000] =
      ⟨[], [⟨6000,
        [⟨pairPartA, 0, 3000, none, some 45, false, true⟩,
         ⟨pairPartB, 2800, 3000, none, some 45, false, true⟩],
        200, 10 / 3⟩], []⟩ := by
  refine ⟨?_, ?_, ?_⟩
  · intro depth l1 l2 tanD a h1 h2 ha
    have hminl : min l1 l2 ≤ l1 := min_le_left _ _
    have hmin0 : 0 ≤ min l1 l2 := le_min h1 h2
    have hcap : min l1 l2 * sharedCapFraction ≤ l1 + l2 := by
      have : min l1 l2 * sharedCapFraction ≤ min l1 l2 * 1 := by
        apply mul_le_mul_of_nonneg_left _ hmin0
        norm_num [sharedCapFraction]
      nlinarith
    simp only [pairSharedAndCombined, if_pos ha]
    split_ifs with hc hneg hneg2 <;>
      first
        | (refine ⟨rfl, rfl, ?_⟩; try linarith)
        | (exfalso; linarith)
    · exact le_refl _
    · exact le_of_not_lt hc
  · intro stocks depth tanD bestStock p1 p1s p1e p2 p2s p2e pt st
    have hcommit : ∀ (sh co : ℚ) (s : BuildSt),
        (step1Commit bestStock p1 p1s p1e p2 p2s p2e sh co s).1.currentLength
          = s.currentLength ∨
        (step1Commit bestStock p1 p1s p1e p2 p2s p2e sh co s).1.currentLength
          = s.currentLength + co := by
      intro sh co s
      simp only [step1Commit]
      split_ifs <;> simp
    simp only [step1TryPair]
    rcases hb : pairBestStock stocks
        (pairSharedAndCombined depth p1.plen p2.plen tanD
          (pairCalcAngle pt p1 p2)).2
      with _ | bsp <;> simp only [hb] <;> split_ifs <;>
      first
        | (left; rfl)
        | exact hcommit _ _ _
  · decide!

/-- C2 witness: the combined-length formula applied at depth 200mm,
lengths 3000mm and the 45-degree angle with the idealized tangent. -/
theorem c2_complementary_pair_witness :
    (pairSharedAndCombined 200 3000 3000 tanAt45 (some 45)).2
      = 3000 + 3000 - (pairSharedAndCombined 200 3000 3000 tanAt45 (some 45)).1 ∧
    (pairSharedAndCombined 200 3000 3000 tanAt45 (some 45)).1
      = (if (200 : ℚ) * tanAt45 |45| > min 3000 3000 * sharedCapFraction
          then min 3000 3000 * sharedCapFraction else 200 * tanAt45 |45|) ∧
    (pairSharedAndCombined 200 3000 3000 tanAt45 (some 45)).1
      ≤ min 3000 3000 * sharedCapFraction :=
  c2_complementary_pair.1 200 3000 3000 tanAt45 45 (by norm_num) (by norm_num)
    (by norm_num)

/-- Previous placement ending in a +45-degree cut, for the kerf
counterexample. -/
def prevPl45 : Placement :=
  ⟨⟨10, 3000, none, some 45, false, true, 1, 1, false⟩, 0, 3000,
    none, some 45, false, true⟩

/-- Incoming part whose start cut is also +45 degrees (matching
magnitude, same sign) and whose end is square. -/
def sameSign45 : NPart := ⟨11, 3000, some 45, none, true, false, 1, 1, false⟩

/-- C3 counterexample: the greedy fill inserts the 3mm kerf between a
placement ending at +45 degrees and a part starting at +45 degrees,
although the touching angles match within the 2-degree tolerance (and
flipping does not help since the flipped start is square against a
sloped end): the fill requires opposite signs in addition to matching
magnitudes, so the claim that matching angles alone flush without kerf
is false at this input. -/
theorem c3_same_sign_gets_kerf :
    |(|(45 : ℚ)| - |(45 : ℚ)|)| ≤ 2 ∧
    prevPl45.sEndAngle = some 45 ∧ sameSign45.startAngle = some 45 ∧
    fillFlush [prevPl45] sameSign45 = (kerfMM, sameSign45) ∧
    (kerfMM : ℚ) ≠ 0 := by
  refine ⟨by norm_num, rfl, rfl, by decide!, by norm_num [kerfMM]⟩

/-- C3 (amended): within one bar, no kerf is inserted between
consecutive placements whose touching ends are both square, or whose
touching angles match within the 2-degree tolerance AND carry opposite
signs (flipping the incoming piece when only the flipped orientation
flushes); in every other case the fixed 3mm kerf is inserted.  Two
square-ended pieces of 2000mm and 3000mm on one 6000mm stock are packed
into a single pattern with waste 1000mm and zero inter-piece kerf (the
second placement starts exactly at 3000mm, the end of the first). -/
theorem c3_flush_kerf_rule :
    (∀ (pp : List Placement) (prev : Placement) (p : NPart),
      pp.getLast? = some prev → prev.sEndHasSlope = false →
      p.startHasSlope = false → fillFlush pp p = (0, p)) ∧
    (∀ (pp : List Placement) (prev : Placement) (p : NPart) (a b : ℚ),
      pp.getLast? = some prev → prev.sEndHasSlope = true →
      p.startHasSlope = true → prev.sEndAngle = some a →
      p.startAngle = some b → |(|a| - |b|)| ≤ 2 →
      (0 < a ∧ b < 0 ∨ a < 0 ∧ 0 < b) → fillFlush pp p = (0, p)) ∧
    (∀ (pp : List Placement) (prev : Placement) (p : NPart),
      pp.getLast? = some prev →
      boundaryCanShare prev.sEndHasSlope prev.sEndAngle
        p.startHasSlope p.startAngle = false →
      boundaryCanShare prev.sEndHasSlope prev.sEndAngle
        p.endHasSlope p.endAngle = true →
      fillFlush pp p = (0, flipPart p)) ∧
    (∀ (pp : List Placement) (prev : Placement) (p : NPart),
      pp.getLast? = some prev →
      boundaryCanShare prev.sEndHasSlope prev.sEndAngle
        p.startHasSlope p.startAngle = false →
      boundaryCanShare prev.sEndHasSlope prev.sEndAngle
        p.endHasSlope p.endAngle = false →
      fillFlush pp p = (kerfMM, p) ∧ kerfMM = 3) ∧
    nestProfile 200 tanUnused [squarePartA, squarePartB] [6000] =
      ⟨[], [⟨6000,
        [⟨squarePartB, 0, 3000, none, none, false, false⟩,
         ⟨squarePartA, 3000, 2000, none, none, false, false⟩],
        1000, 50 / 3⟩], []⟩ := by
  refine ⟨?_, ?_, ?_, ?_, by decide!⟩
  · intro pp prev p hlast hps hcs
    have hshare : boundaryCanShare prev.sEndHasSlope prev.sEndAngle
        p.startHasSlope p.startAngle = true := by
      simp [boundaryCanShare, hps, hcs]
    simp [fillFlush, hlast, hshare]
  · intro pp prev p a b hlast hps hcs hpa hpb hdiff hsign
    have hshare : boundaryCanShare prev.sEndHasSlope prev.sEndAngle
        p.startHasSlope p.startAngle = true := by
      simp [boundaryCanShare, hps, hcs, hpa, hpb, oppositeSigns]
      exact ⟨hdiff, by tauto⟩
    simp [fillFlush, hlast, hshare]
  · intro pp prev p hlast hnat hflip
    simp [fillFlush, hlast, hnat, hflip]
  · intro pp prev p hlast hnat hflip
    exact ⟨by simp [fillFlush, hlast, hnat, hflip], rfl⟩

/-- C3 witness: the square-square rule applied to the concrete scenario
boundary (placement of the 3000mm square part followed by the 2000mm
square part). -/
theorem c3_flush_kerf_rule_witness :
    fillFlush [⟨squarePartB, 0, 3000, none, none, false, false⟩]
      squarePartA = (0, squarePartA) :=
  c3_flush_kerf_rule.1 _ _ _ rfl rfl rfl

/-- C9 witness: with stocks {6000, 12000}mm — a single remaining piece
of 3000mm fits everything into 6000mm, the shortest candidate; two
pieces of 7000mm and 6000mm fit together in no stock, so the longest
stock 12000mm is selected. -/
theorem c9_stock_selection_witness :
    (∃ m, selectStock [6000, 12000]
        [⟨1, 3000, none, none, false, false, 0, 0, false⟩] = some m ∧
      m ∈ [(6000 : ℚ), 12000] ∧
      fitsAll [⟨1, 3000, none, none, false, false, 0, 0, false⟩] m = true ∧
      ∀ s ∈ [(6000 : ℚ), 12000],
        fitsAll [⟨1, 3000, none, none, false, false, 0, 0, false⟩] s = true →
          m ≤ s) ∧
    selectStock [6000, 12000]
        [⟨1, 7000, none, none, false, false, 0, 0, false⟩,
         ⟨2, 6000, none, none, false, false, 0, 0, false⟩] =
      some (qmax [6000, 12000]) :=
  ⟨c9_stock_selection.1 [6000, 12000] _ 6000 (by decide!) (by decide!),
   (c9_stock_selection.2 [6000, 12000] _ (by decide!) (by decide!)
     (by decide!)).1⟩

theorem step1Commit_placements {best : ℚ} {p1 : NPart} {s1 e1 : Bool}
    {p2 : NPart} {s2 e2 : Bool} {sh co : ℚ} {st1 : BuildSt} :
    ∀ pl ∈ (step1Commit best p1 s1 e1 p2 s2 e2 sh co st1).1.patternParts,
      pl ∈ st1.patternParts ∨ pl.part = p1 ∨ pl.part = p2 := by
  intro pl hpl
  simp only [step1Commit] at hpl
  split_ifs at hpl
  · exact Or.inl hpl
  · rcases List.mem_append.1 (List.mem_filter.1 hpl).1 with h | h
    · exact Or.inl h
    · rcases List.mem_cons.1 h with rfl | h
      · exact Or.inr (Or.inl rfl)
      · rcases List.mem_singleton.1 h with rfl
        exact Or.inr (Or.inr rfl)
  · rcases List.mem_append.1 (List.mem_filter.1 hpl).1 with h | h
    · exact Or.inl h
    · rcases List.mem_cons.1 h with rfl | h
      · exact Or.inr (Or.inl rfl)
      · rcases List.mem_singleton.1 h with rfl
        exact Or.inr (Or.inr rfl)
  · rcases List.mem_append.1 hpl with h | h
    · exact Or.inl h
    · rcases List.mem_cons.1 h with rfl | h
      · exact Or.inr (Or.inl rfl)
      · rcases List.mem_singleton.1 h with rfl
        exact Or.inr (Or.inr rfl)

theorem step1TryPair_placements {stocks : List ℚ} {depth : ℚ} {tanD : ℚ → ℚ}
    {best : ℚ} {p1 : NPart} {s1 e1 : Bool} {p2 : NPart} {s2 e2 : Bool}
    {pt : PairType} {st : BuildSt} :
    ∀ pl ∈ (step1TryPair stocks depth tanD best p1 s1 e1 p2 s2 e2 pt
        st).1.patternParts,
      pl ∈ st.patternParts ∨ pl.part = p1 ∨ pl.part = p2 := by
  intro pl hpl
  simp only [step1TryPair] at hpl
  split at hpl <;> try exact Or.inl hpl
  split at hpl <;> try exact Or.inl hpl
  split_ifs at hpl <;>
    first
      | exact Or.inl hpl
      | (rcases step1Commit_placements pl hpl with h | h | h
         · exact Or.inl h
         · exact Or.inr (Or.inl h)
         · exact Or.inr (Or.inr h))

theorem step1Inner_placements {stocks : List ℚ} {depth : ℚ} {tanD : ℚ → ℚ}
    {best : ℚ} {p1 : NPart} {s1 e1 : Bool} :
    ∀ (l : List NPart) (st : BuildSt),
      ∀ pl ∈ (step1Inner stocks depth tanD best p1 s1 e1 l st).patternParts,
        pl ∈ st.patternParts ∨ pl.part = p1 ∨ pl.part ∈ l := by
  intro l
  induction l with
  | nil => intro st pl hpl; exact Or.inl hpl
  | cons p2 tl ih =>
      intro st pl hpl
      simp only [step1Inner] at hpl
      split_ifs at hpl
      · rcases ih st pl hpl with h | h | h
        · exact Or.inl h
        · exact Or.inr (Or.inl h)
        · exact Or.inr (Or.inr (List.mem_cons_of_mem _ h))
      · split at hpl
        · rcases ih st pl hpl with h | h | h
          · exact Or.inl h
          · exact Or.inr (Or.inl h)
          · exact Or.inr (Or.inr (List.mem_cons_of_mem _ h))
        · rename_i pt hdet
          rcases htp : step1TryPair stocks depth tanD best p1 s1 e1 p2
              (slopeAnyFlags p2).1 (slopeAnyFlags p2).2 pt st with ⟨st2, ctl⟩
          rw [htp] at hpl
          have hst2 : ∀ q ∈ st2.patternParts,
              q ∈ st.patternParts ∨ q.part = p1 ∨ q.part = p2 := by
            intro q hq
            exact step1TryPair_placements q (by rw [htp]; exact hq)
          cases ctl
          · rcases ih st2 pl hpl with h | h | h
            · rcases hst2 pl h with h2 | h2 | h2
              · exact Or.inl h2
              · exact Or.inr (Or.inl h2)
              · exact Or.inr (Or.inr (h2 ▸ List.mem_cons_self _ _))
            · exact Or.inr (Or.inl h)
            · exact Or.inr (Or.inr (List.mem_cons_of_mem _ h))
          · rcases hst2 pl hpl with h | h | h
            · exact Or.inl h
            · exact Or.inr (Or.inl h)
            · exact Or.inr (Or.inr (h ▸ List.mem_cons_self _ _))


theorem step1Outer_placements {stocks : List ℚ} {depth : ℚ} {tanD : ℚ → ℚ}
    {best : ℚ} :
    ∀ (l : List NPart) (st : BuildSt),
      ∀ pl ∈ (step1Outer stocks depth tanD best l st).patternParts,
        pl ∈ st.patternParts ∨ pl.part ∈ l := by
  intro l
  induction l with
  | nil => intro st pl hpl; exact Or.inl hpl
  | cons p1 tl ih =>
      intro st pl hpl
      simp only [step1Outer] at hpl
      split_ifs at hpl
      · exact Or.inl hpl
      · rcases ih st pl hpl with h | h
        · exact Or.inl h
        · exact Or.inr (List.mem_cons_of_mem _ h)
      · rcases ih st pl hpl with h | h
        · exact Or.inl h
        · exact Or.inr (List.mem_cons_of_mem _ h)
      · rcases ih _ pl hpl with h | h
        · rcases step1Inner_placements tl st pl h with h2 | h2 | h2
          · exact Or.inl h2
          · exact Or.inr (h2 ▸ List.mem_cons_self _ _)
          · exact Or.inr (List.mem_cons_of_mem _ h2)
        · exact Or.inr (List.mem_cons_of_mem _ h)

theorem fillFlush_part (pp : List Placement) (p : NPart) :
    (fillFlush pp p).2 = p ∨ (fillFlush pp p).2 = flipPart p := by
  simp only [fillFlush]
  split
  · exact Or.inl rfl
  · split_ifs
    · exact Or.inl rfl
    · exact Or.inr rfl
    · exact Or.inl rfl

theorem fillLoop_placements {best : ℚ} {valid : List NPart} :
    ∀ (l : List NPart) (s : FillSt),
      ∀ pl ∈ (fillLoop best valid l s).bst.patternParts,
        pl ∈ s.bst.patternParts ∨
        ∃ q ∈ valid, pl.part = q ∨ pl.part = flipPart q := by
  intro l
  induction l with
  | nil => intro s pl hpl; exact Or.inl hpl
  | cons part tl ih =>
      intro s pl hpl
      simp only [fillLoop] at hpl
      split_ifs at hpl <;>
        first
          | exact Or.inl hpl
          | (have h9 := ih _ pl hpl
             exact h9)
          | (have hv : part ∈ valid := by assumption
             first
               | (rcases List.mem_append.1 (List.mem_filter.1 hpl).1 with h | h
                  · exact Or.inl h
                  · rcases List.mem_singleton.1 h with rfl
                    exact Or.inr
                      ⟨part, hv, fillFlush_part s.bst.patternParts part⟩)
               | (rcases List.mem_append.1 hpl with h | h
                  · exact Or.inl h
                  · rcases List.mem_singleton.1 h with rfl
                    exact Or.inr
                      ⟨part, hv, fillFlush_part s.bst.patternParts part⟩)
               | (rcases ih _ pl hpl with h | h
                  · rcases List.mem_append.1 h with h2 | h2
                    · exact Or.inl h2
                    · rcases List.mem_singleton.1 h2 with rfl
                      exact Or.inr
                        ⟨part, hv, fillFlush_part s.bst.patternParts part⟩
                  · exact Or.inr h))

theorem selectStock_mem {stocks : List ℚ} {parts : List NPart} {b : ℚ}
    (h : selectStock stocks parts = some b) : b ∈ stocks := by
  rcases hc : (sortDescBy id stocks).filter (fitsAll parts)
    with _ | ⟨c, _ | ⟨c2, rest⟩⟩
  · simp only [selectStock, hc] at h
    have hb : b ∈ (sortDescBy id stocks).filter
        fun s => decide (largestLen parts ≤ s) := by
      refine List.mem_of_mem_head? ?_
      rw [h]
      rfl
    exact mem_sortDescBy.1 (List.mem_filter.1 hb).1
  · simp only [selectStock, hc] at h
    cases h
    have hcmem : b ∈ (sortDescBy id stocks).filter (fitsAll parts) := by
      rw [hc]
      exact List.mem_singleton.2 rfl
    exact mem_sortDescBy.1 (List.mem_filter.1 hcmem).1
  · simp only [selectStock, hc] at h
    split_ifs at h <;> cases h
    · have hcmem : (c :: c2 :: rest).getLast (by simp) ∈
          (sortDescBy id stocks).filter (fitsAll parts) := by
        rw [hc]
        exact List.getLast_mem _
      exact mem_sortDescBy.1 (List.mem_filter.1 hcmem).1
    · have hcmem : b ∈ (sortDescBy id stocks).filter (fitsAll parts) := by
        rw [hc]
        exact List.mem_cons_self _ _
      exact mem_sortDescBy.1 (List.mem_filter.1 hcmem).1

theorem nestIter_good (stocks : List ℚ) (depth : ℚ) (tanD : ℚ → ℚ)
    (st : LoopSt) :
    ∀ pat ∈ (nestIter stocks depth tanD st).1.patterns,
      pat ∈ st.patterns ∨
      (pat.stockLength ∈ stocks ∧
        ∀ pl ∈ pat.parts, pl.part.plen ≤ pat.stockLength) := by
  intro pat hpat
  simp only [nestIter] at hpat
  split at hpat
  · exact Or.inl hpat
  · split at hpat
    · exact Or.inl hpat
    · split at hpat
      · exact Or.inl hpat
      · rename_i best hsel
        split at hpat
        · exact Or.inl hpat
        · split at hpat
          · split at hpat
            · exact Or.inl hpat
            · split at hpat
              · exact Or.inl hpat
              · exact Or.inl hpat
          · split at hpat
            · exact Or.inl hpat
            · exact Or.inl hpat
            · rename_i pat2 hfin
              rcases List.mem_append.1 hpat with h | h
              · exact Or.inl h
              · rcases List.mem_singleton.1 h with rfl
                right
                have hemit := finalizeOutcome_emit hfin
                refine ⟨hemit.1 ▸ selectStock_mem hsel, ?_⟩
                intro pl hpl
                rw [hemit.2.1] at hpl
                rw [hemit.1]
                rcases fillLoop_placements _ _ pl hpl with h2 | ⟨q, hq, hc⟩
                · rcases step1Outer_placements _ _ pl h2 with h3 | h3
                  · exact absurd h3 (List.not_mem_nil _)
                  · have h4 := (List.mem_filter.1 (mem_sortDescBy.1 h3)).2
                    simpa using h4
                · have h4 := (List.mem_filter.1 (mem_sortDescBy.1 hq)).2
                  rcases hc with hc | hc <;> rw [hc] <;> simpa using h4

theorem nestIter_rejected_mono (stocks : List ℚ) (depth : ℚ)
    (tanD : ℚ → ℚ) (st : LoopSt) :
    ∀ e ∈ st.rejected, e ∈ (nestIter stocks depth tanD st).1.rejected := by
  intro e he
  simp only [nestIter]
  repeat' split
  all_goals first
    | exact he
    | exact List.mem_append_left _ he
    | exact List.mem_append_left _ (List.mem_append_left _ he)

theorem nestIter_oversize (stocks : List ℚ) (depth : ℚ) (tanD : ℚ → ℚ)
    (st : LoopSt) (p : NPart) (hs : stocks ≠ []) (hp : p ∈ st.pool)
    (hgt : p.plen > qmax stocks) :
    (⟨p.pid, p.plen, qmax stocks,
      .exceedsLongestStock p.plen (qmax stocks)⟩ : Rejected) ∈
      (nestIter stocks depth tanD st).1.rejected := by
  cases stocks with
  | nil => exact absurd rfl hs
  | cons s ss =>
    have hf : p ∈ st.pool.filter (fun q => q.plen > qmax (s :: ss)) :=
      List.mem_filter.2 ⟨hp, by simpa using hgt⟩
    have hkey : (⟨p.pid, p.plen, qmax (s :: ss),
        .exceedsLongestStock p.plen (qmax (s :: ss))⟩ : Rejected) ∈
        st.rejected ++
          (st.pool.filter fun q => q.plen > qmax (s :: ss)).map
            (fun q => ⟨q.pid, q.plen, qmax (s :: ss),
              .exceedsLongestStock q.plen (qmax (s :: ss))⟩) :=
      List.mem_append_right _ (List.mem_map.2 ⟨p, hf, rfl⟩)
    simp only [nestIter]
    repeat' split
    all_goals first | exact hkey | exact List.mem_append_left _ hkey

theorem nestLoop_rejected_mono (stocks : List ℚ) (depth : ℚ)
    (tanD : ℚ → ℚ) (fuel : Nat) (st : LoopSt) :
    ∀ e ∈ st.rejected, e ∈ (nestLoop stocks depth tanD fuel st).rejected := by
  induction fuel generalizing st with
  | zero => intro e he; exact he
  | succ fuel ih =>
    intro e he
    simp only [nestLoop]
    split
    · exact he
    · split
      · exact nestIter_rejected_mono stocks depth tanD st e he
      · exact ih _ _ (nestIter_rejected_mono stocks depth tanD st e he)

theorem nestLoop_good (stocks : List ℚ) (depth : ℚ) (tanD : ℚ → ℚ)
    (fuel : Nat) (st : LoopSt) :
    ∀ pat ∈ (nestLoop stocks depth tanD fuel st).patterns,
      pat ∈ st.patterns ∨
      (pat.stockLength ∈ stocks ∧
        ∀ pl ∈ pat.parts, pl.part.plen ≤ pat.stockLength) := by
  induction fuel generalizing st with
  | zero => intro pat hpat; exact Or.inl hpat
  | succ fuel ih =>
    intro pat hpat
    simp only [nestLoop] at hpat
    split at hpat
    · exact Or.inl hpat
    · split at hpat
      · exact nestIter_good stocks depth tanD st pat hpat
      · have h2 := ih _ pat hpat
        rcases h2 with h2 | h2
        · exact nestIter_good stocks depth tanD st pat h2
        · exact Or.inr h2

theorem nestLoop_oversize (stocks : List ℚ) (depth : ℚ) (tanD : ℚ → ℚ)
    (fuel : Nat) (st : LoopSt) (p : NPart) (hs : stocks ≠ [])
    (hp : p ∈ st.pool) (hgt : p.plen > qmax stocks) (hfuel : 0 < fuel) :
    (⟨p.pid, p.plen, qmax stocks,
      .exceedsLongestStock p.plen (qmax stocks)⟩ : Rejected) ∈
      (nestLoop stocks depth tanD fuel st).rejected := by
  cases fuel with
  | zero => exact absurd hfuel (by simp)
  | succ fuel =>
    simp only [nestLoop]
    split
    · rename_i hpool
      rw [hpool] at hp
      exact absurd hp (List.not_mem_nil _)
    · have hkey := nestIter_oversize stocks depth tanD st p hs hp hgt
      split
      · exact hkey
      · exact nestLoop_rejected_mono stocks depth tanD fuel _ _ hkey

/-- Part of pid 1, 13000 mm: longer than every demo stock. -/
def c4PartBig : NPart := ⟨1, 13000, none, none, false, false, 1, 1, false⟩

/-- Part of pid 2, 3000 mm: fits the 6000 mm demo stock. -/
def c4PartSmall : NPart := ⟨2, 3000, none, none, false, false, 1, 1, false⟩

/-- C4: a part longer than the longest available stock is added to
rejected_parts with reason "Part length (L mm) exceeds longest available
stock (S mm)" (line 2819) and is excluded from nesting: no emitted
cutting pattern places it.  The second conjunct runs the whole model on
a 13000 mm part with stocks [6000, 12000]: the part lands in
rejected_parts with exactly that reason while the remaining 3000 mm part
is nested normally. -/
theorem c4_oversize_rejected :
    (∀ (depth : ℚ) (tanD : ℚ → ℚ) (parts : List NPart) (stocks : List ℚ)
        (p : NPart), stocks ≠ [] → p ∈ parts → p.plen > qmax stocks →
      ((⟨p.pid, p.plen, qmax stocks,
          .exceedsLongestStock p.plen (qmax stocks)⟩ : Rejected) ∈
        (nestProfile depth tanD parts stocks).rejected ∧
       ∀ pat ∈ (nestProfile depth tanD parts stocks).patterns,
         ∀ pl ∈ pat.parts, pl.part ≠ p)) ∧
    nestProfile 200 tanUnused [c4PartBig, c4PartSmall] [6000, 12000] =
      ⟨[], [⟨6000, [⟨c4PartSmall, 0, 3000, none, none, false, false⟩],
            3000, 50⟩],
       [⟨1, 13000, 12000, .exceedsLongestStock 13000 12000⟩]⟩ := by
  constructor
  · intro depth tanD parts stocks p hs hp hgt
    have hne : parts ≠ [] := List.ne_nil_of_mem hp
    have hfuel : 0 < min (parts.length * 3) 500 := by
      have hlen : 0 < parts.length := List.length_pos.2 hne
      omega
    simp only [nestProfile]
    refine ⟨nestLoop_oversize stocks depth tanD _ _ p hs hp hgt hfuel, ?_⟩
    intro pat hpat pl hpl heq
    rcases nestLoop_good stocks depth tanD _ _ pat hpat with h | ⟨hmem, hall⟩
    · exact absurd h (List.not_mem_nil _)
    · have h1 := hall pl hpl
      rw [heq] at h1
      exact absurd (h1.trans (le_qmax hmem)) (not_le.2 hgt)
  · decide!

/-- Witness for C4 at the demo input: the 13000 mm part really triggers
both conclusions against stocks [6000, 12000]. -/
theorem c4_oversize_rejected_witness :
    (⟨1, 13000, 12000,
      RejectReason.exceedsLongestStock 13000 12000⟩ : Rejected) ∈
      (nestProfile 200 tanUnused [c4PartBig, c4PartSmall]
        [6000, 12000]).rejected :=
  (c4_oversize_rejected.1 200 tanUnused [c4PartBig, c4PartSmall]
    [6000, 12000] c4PartBig (by simp) (by simp)
    (by show (13000 : ℚ) > qmax [6000, 12000]; decide!)).1

end SteelNest
